import Mathlib

/-
Shallow embedding of the team_assign program (src/main.rs): an affinity-graph
builder that turns survey records into per-person attractor/repulsor models,
and a randomized partition solver.  Rust HashMap/HashSet state is modelled by
association lists and membership lists; the out-of-band random number
generator is an explicit stream of shuffle functions; Rust panics (assert,
unwrap) are modelled with Except errors.
-/

deriving instance DecidableEq for Except

/-- Rust str::to_ascii_lowercase, over the character list of the string (the
list form keeps every string operation of the embedding computable by the
kernel). -/
def asciiLower (s : String) : String :=
  String.mk (s.data.map (fun c => if 'A' ≤ c && c ≤ 'Z' then Char.ofNat (c.toNat + 32) else c))

/-- Rust str::trim: drop whitespace from both ends. -/
def strTrim (s : String) : String :=
  String.mk (((s.data.dropWhile Char.isWhitespace).reverse.dropWhile
    Char.isWhitespace).reverse)

/-- Splitting a character list on a separator, keeping empty pieces (the
semantics of Rust str::split on a char): the empty input gives one empty
piece. -/
def splitChar (sep : Char) : List Char → List (List Char)
  | [] => [[]]
  | c :: rest =>
    let r := splitChar sep rest
    if c = sep then [] :: r
    else
      match r with
      | [] => [[c]]
      | h :: t => (c :: h) :: t

/-- Rust str::split on the comma. -/
def strSplitComma (s : String) : List String :=
  (splitChar ',' s.data).map (fun l => String.mk l)

/-- The sanitization applied to veto/want entries: trim then ascii-lowercase. -/
def sanitize (s : String) : String := asciiLower (strTrim s)

/-- Lookup in an association-list model of a Rust HashMap: first binding wins. -/
def alookup {β : Type} (m : List (String × β)) (k : String) : Option β :=
  (m.find? (fun p => p.1 == k)).map (fun p => p.2)

/-- Insert in an association-list model of a Rust HashMap: replaces the
binding when the key is present, otherwise appends a new binding. -/
def ainsert {β : Type} (m : List (String × β)) (k : String) (v : β) : List (String × β) :=
  if (m.find? (fun p => p.1 == k)).isSome then
    m.map (fun p => if p.1 == k then (k, v) else p)
  else m ++ [(k, v)]

/-- Insert in a membership-list model of a Rust HashSet. -/
def setInsert (s : List String) (x : String) : List String :=
  if s.contains x then s else s ++ [x]

/-- Union of HashSet models (`a.union(b).collect()`): membership-wise union. -/
def unionSet (a b : List String) : List String := b.foldl setInsert a

/-- The per-person model (struct Student in src/main.rs). -/
structure Student where
  email : String
  school_username : String
  github_username : String
  attractors : List String
  classification_attractors : List String
  repulsors : List String
  wants : List String
  vetos : List String
  ok_solo : Bool
deriving DecidableEq

/-- Student::new. -/
def Student.new (email school gh : String) : Student :=
  ⟨email, school, gh, [], [], [], [], [], false⟩

/-- type Students = HashMap of Username to Student. -/
abbrev Students := List (String × Student)

/-- students.get(k). -/
def lookupStudent (students : Students) (k : String) : Option Student :=
  alookup students k

/-- struct Team. -/
structure Team where
  members : List String
  score : Nat
deriving DecidableEq

/-- How validate_assignment can abandon a trial: a lookupFailure models the
Rust panic on students.get(..).unwrap() for an unknown member; invalid models
the early None return on a repulsor pair. -/
inductive VErr
  | lookupFailure
  | invalid
deriving DecidableEq

/-- The per-ordered-pair goodness: +3 for an explicit attractor, else +1 for a
classification attractor, else 0 (lines 418-422 of src/main.rs). -/
def pairScore (st : Student) (s2 : String) : Nat :=
  if st.attractors.contains s2 then 3
  else if st.classification_attractors.contains s2 then 1
  else 0

/-- The inner loop of validate_assignment for one member s1: walk the team
members s2, skip s2 = s1, look s1 up (panic when absent), return None on a
repulsor, otherwise accumulate pairScore. -/
def memberScoreAux (students : Students) (s1 : String) : Nat → List String → Except VErr Nat
  | acc, [] => .ok acc
  | acc, s2 :: rest =>
    if s1 = s2 then memberScoreAux students s1 acc rest
    else
      match lookupStudent students s1 with
      | none => .error .lookupFailure
      | some st =>
        if st.repulsors.contains s2 then .error .invalid
        else memberScoreAux students s1 (acc + pairScore st s2) rest

/-- The outer loop of validate_assignment for one team: accumulate the inner
loop over every member s1. -/
def teamGoodnessAux (students : Students) (members : List String) :
    Nat → List String → Except VErr Nat
  | acc, [] => .ok acc
  | acc, s1 :: rest =>
    match memberScoreAux students s1 acc members with
    | .error e => .error e
    | .ok acc2 => teamGoodnessAux students members acc2 rest

/-- The goodness of one team. -/
def teamGoodness (students : Students) (members : List String) : Except VErr Nat :=
  teamGoodnessAux students members 0 members

/-- The scores vector accumulated by validate_assignment, one per team. -/
def scoreTeams (students : Students) : List Team → Except VErr (List Nat)
  | [] => .ok []
  | t :: rest =>
    match teamGoodness students t.members with
    | .error e => .error e
    | .ok g =>
      match scoreTeams students rest with
      | .error e => .error e
      | .ok gs => .ok (g :: gs)

/-- validate_assignment (lines 402-436): on success returns the assignment
with per-team scores written in, together with the total goodness. -/
def validate_assignment (students : Students) (assignment : List Team) :
    Except VErr (List Team × Nat) :=
  match scoreTeams students assignment with
  | .error e => .error e
  | .ok gs => .ok ((assignment.zip gs).map (fun p => ⟨p.1.members, p.2⟩), gs.sum)

/-- let teamsz = 2 (line 443). -/
def teamsz : Nat := 2

/-- Grouping the shuffled draft into consecutive teams of teamsz = 2 members
(lines 475-480); a trailing odd member forms a singleton chunk. -/
def chunksOf2 : List String → List (List String)
  | [] => []
  | [a] => [[a]]
  | a :: b :: rest => [a, b] :: chunksOf2 rest

/-- The fresh assignment built from a shuffled draft (scores start at 0). -/
def mkAssignment (l : List String) : List Team :=
  (chunksOf2 l).map (fun ms => ⟨ms, 0⟩)

/-- The straggler pre-pass (lines 451-467): walk the shuffled draft peeling
off up to k people whose ok_solo is set into the solos list, the rest into
the pruned draft.  The error models the Rust unwrap panic on an unknown
member. -/
def prepass (students : Students) : Nat → List String → Except Unit (List String × List String)
  | _, [] => .ok ([], [])
  | k, n :: rest =>
    match lookupStudent students n with
    | none => .error ()
    | some s =>
      if s.ok_solo ∧ 0 < k then
        match prepass students (k - 1) rest with
        | .error e => .error e
        | .ok (dp, sl) => .ok (dp, n :: sl)
      else
        match prepass students k rest with
        | .error e => .error e
        | .ok (dp, sl) => .ok (n :: dp, sl)

/-- The trial loop of solve (lines 471-487): iters trials; each trial
shuffles the draft in place (modelled by applying the rng stream at the next
index), groups it into teams, validates, and keeps the assignment when its
score strictly exceeds the highest seen (which starts at 0). -/
def solveLoop (students : Students) (rng : Nat → List String → List String) :
    Nat → Nat → List String → Option (List Team) → Nat → Except Unit (Option (List Team))
  | _, 0, _, best, _ => .ok best
  | idx, iters + 1, d, best, h =>
    let d1 := rng idx d
    match validate_assignment students (mkAssignment d1) with
    | .error .lookupFailure => .error ()
    | .error .invalid => solveLoop students rng (idx + 1) iters d1 best h
    | .ok (sc, g) =>
      if h < g then solveLoop students rng (idx + 1) iters d1 (some sc) g
      else solveLoop students rng (idx + 1) iters d1 (best) h

/-- solve (lines 438-499) with the iteration count as a parameter: the draft
starts as the key list of the student map; when the population is not a
multiple of teamsz the draft is shuffled once and the pre-pass peels off
solos; the trial loop then searches, and the solo singleton teams are
appended to the best assignment (when one exists). -/
def solve_rng (students : Students) (iters : Nat)
    (rng : Nat → List String → List String) : Except Unit (Option (List Team)) :=
  let draft0 := students.map (fun p => p.1)
  let nstragglers := draft0.length % teamsz
  if nstragglers = 0 then
    solveLoop students rng 0 iters draft0 none 0
  else
    match prepass students nstragglers (rng 0 draft0) with
    | .error e => .error e
    | .ok (draft, solos) =>
      match solveLoop students rng 1 iters draft none 0 with
      | .error e => .error e
      | .ok none => .ok none
      | .ok (some b) => .ok (some (b ++ solos.map (fun s => ⟨[s], 0⟩)))

/-- solve with the fixed reference iteration budget 2^20 (line 471). -/
def solve (students : Students) (rng : Nat → List String → List String) :
    Except Unit (Option (List Team)) :=
  solve_rng students (2 ^ 20) rng

/-- The identity shuffle stream: every shuffle call returns its input
unchanged (a legitimate permutation). -/
def idRng : Nat → List String → List String := fun _ l => l

/-- Feedback record (struct StudentFeedback), as deserialized from the survey
csv. -/
structure StudentFeedback where
  email_addr : String
  school_username : String
  github_username : String
  solo : String
  last_teammate_github_username : Option String
  last_teammate_feedback : Option String
  last_teammate_additional_feedback : Option String
  veto0 : Option String
  veto1 : Option String
  veto2 : Option String
  want0 : Option String
  want1 : Option String
  want2 : Option String
deriving DecidableEq

/-- Classification record (struct StudentClassification). -/
structure StudentClassification where
  name : String
  school_username : String
  github_username : String
  classifications : Option String
deriving DecidableEq

/-- Relation record (struct ClassificationRelations); the source field names
are class, class_other and relation. -/
structure ClassificationRelations where
  cls : String
  cls_other : String
  relation : String
deriving DecidableEq

/-- The normalization parse applies to each feedback record (lines 64-65):
school and github usernames are trimmed and ascii-lowercased.  Classification
and relation records are pushed through parse unchanged (lines 69-79). -/
def normalizeFeedback (f : StudentFeedback) : StudentFeedback :=
  { f with
    school_username := sanitize f.school_username
    github_username := sanitize f.github_username }

/-- How the builder aborts: duplicateStudent models the assert on a repeated
classification handle (line 155), unknownPhrase the assert on a feedback
phrase outside the closed vocabulary (line 276), and lookupFailure the unwrap
panic in the final merge (line 358). -/
inductive BuildErr
  | duplicateStudent
  | unknownPhrase
  | lookupFailure
deriving DecidableEq

/-- The mutable maps student_matrix accumulates (lines 120-125). -/
structure BuildState where
  students : List (String × Student)
  classification_students : List (String × List String)
  student_classification : List (String × List String)
  attractor_class : List (String × List String)
  repulsor_class : List (String × List String)
  gh2school : List (String × String)
deriving DecidableEq

def emptyBuildState : BuildState := ⟨[], [], [], [], [], []⟩

/-- insert_classification (lines 127-151): skip the empty label, add s to the
members of label c, and add c to the labels of s. -/
def insert_classification (s c : String) (st : BuildState) : BuildState :=
  if c = "" then st
  else
    { st with
      classification_students :=
        ainsert st.classification_students c
          (setInsert ((alookup st.classification_students c).getD []) s)
      student_classification :=
        ainsert st.student_classification s
          (setInsert ((alookup st.student_classification s).getD []) c) }

/-- The seeding loop over classification records (lines 153-181): a repeated
school_username aborts; otherwise a fresh Student is inserted, its label set
is (re)initialized empty, and each comma-separated classification is
indexed. -/
def seedStudents : List StudentClassification → BuildState → Except BuildErr BuildState
  | [], st => .ok st
  | s :: rest, st =>
    if (alookup st.students s.school_username).isSome then .error .duplicateStudent
    else
      let st :=
        { st with
          students := ainsert st.students s.school_username
            (Student.new s.name s.school_username s.github_username),
          student_classification := ainsert st.student_classification s.school_username [] }
      let st := (strSplitComma (s.classifications.getD "")).foldl
        (fun st c => insert_classification s.school_username c st) st
      seedStudents rest st

/-- One relation record (lines 185-210): ensure the subject category has both
sets, then union the snapshot members of the object category into the
attract or repel set according to the polarity characters. -/
def relationStep (st : BuildState) (c : ClassificationRelations) : BuildState :=
  let st :=
    if (alookup st.attractor_class c.cls).isSome then st
    else { st with attractor_class := ainsert st.attractor_class c.cls [] }
  let st :=
    if (alookup st.repulsor_class c.cls).isSome then st
    else { st with repulsor_class := ainsert st.repulsor_class c.cls [] }
  let st :=
    if c.relation.data.contains '+' then
      match alookup st.classification_students c.cls_other with
      | some shs =>
        let att := shs.foldl setInsert ((alookup st.attractor_class c.cls).getD [])
        { st with attractor_class := ainsert st.attractor_class c.cls att }
      | none => st
    else st
  if c.relation.data.contains '-' then
    match alookup st.classification_students c.cls_other with
    | some shs =>
      let rep := shs.foldl setInsert ((alookup st.repulsor_class c.cls).getD [])
      { st with repulsor_class := ainsert st.repulsor_class c.cls rep }
    | none => st
  else st

/-- The closed phrase vocabulary (lines 251-262): phrase maps to an optional
derived category, a want flag and a veto flag. -/
def comment_mapping : List (String × (Option String × Bool × Bool)) :=
  [("Fantastic teammate.", (some "strong", false, false)),
   ("Would love to work with them again.", (none, true, false)),
   ("Both of us working together were greater than the sum of the individuals.",
     (some "helpful", false, false)),
   ("Was not technically capable of pulling their weight.", (none, false, true)),
   ("Did not have a great experience with them.", (some "watch", false, true)),
   ("Did not put in sufficent effort.", (some "lazy", false, true)),
   ("Was not sufficiently responsive.", (some "lazy", false, true)),
   ("Procrastinated.", (some "lazy", false, true)),
   ("Disrespectful.", (some "problem", false, true)),
   ("Abusive.", (some "problem", false, true))]

/-- Resolution of the last-teammate identity (lines 238-247): the alias table
first, then the given value directly when it is a known identity. -/
def resolveLastTeammate (st : BuildState) (lg : String) : Option String :=
  match alookup st.gh2school lg with
  | some sch => some sch
  | none => if (alookup st.student_classification lg).isSome then some lg else none

/-- The phrase loop (lines 268-292): each comma-separated phrase is trimmed
and looked up in the closed vocabulary (an unknown phrase is fatal); a veto
flag stages a repulsion, a want flag an attraction, and a derived category
retroactively classifies the last teammate. -/
def processPhrases (lt : String) : List String → List String → List String → BuildState →
    Except BuildErr (List String × List String × BuildState)
  | [], fbv, fbw, st => .ok (fbv, fbw, st)
  | ph :: rest, fbv, fbw, st =>
    match comment_mapping.find? (fun p => p.1 == strTrim ph) with
    | none => .error .unknownPhrase
    | some (_, c, want, veto) =>
      let fbv := if veto then fbv ++ [lt] else fbv
      let fbw := if want then fbw ++ [lt] else fbw
      let st := match c with
        | some cat => insert_classification lt cat st
        | none => st
      processPhrases lt rest fbv fbw st

/-- The veto-field (and, identically, want-field) fusion (lines 296-343):
push each sanitized valid field in order onto the prior list, then apply
unique().rev().take(3).  The itertools Unique adaptor deduplicates lazily
from whichever end is pulled; under rev() only the back end is pulled, so it
keeps the last occurrence of each value and yields them back to front, which
is uniqueList of the reversed list; the staged feedback-derived entries are
appended afterward, unvalidated and uncapped. -/
def uniqueAux (seen : List String) : List String → List String
  | [] => []
  | x :: xs => if seen.contains x then uniqueAux seen xs else x :: uniqueAux (x :: seen) xs

/-- Itertools unique: keep the first occurrence of each value. -/
def uniqueList (l : List String) : List String := uniqueAux [] l

/-- The push step over the three optional fields: sanitize each present
field in order and append it when it validates against the known labels,
dropping it with a warning otherwise (lines 296-309). -/
def pushVetoFields (st_class : List (String × List String)) (prior : List String)
    (v0 v1 v2 : Option String) : List String :=
  [v0, v1, v2].foldl
    (fun acc v =>
      match v with
      | none => acc
      | some vetoed =>
        let vs := sanitize vetoed
        if (alookup st_class vs).isSome then acc ++ [vs] else acc)
    prior

def applyVetoFields (st_class : List (String × List String)) (prior : List String)
    (v0 v1 v2 : Option String) (fb : List String) : List String :=
  ((uniqueList (pushVetoFields st_class prior v0 v1 v2).reverse).take 3) ++ fb

/-- One feedback record (lines 221-346): skip unknown respondents with a
warning; update ok_solo on a literal Yes/No; resolve the last teammate and
process its feedback phrases; fuse the veto and want fields. -/
def stageLastTeammate (st : BuildState) (f : StudentFeedback) :
    Except BuildErr (List String × List String × BuildState) :=
  match f.last_teammate_github_username with
  | none => .ok ([], [], st)
  | some lg =>
    match resolveLastTeammate st lg with
    | none => .ok ([], [], st)
    | some lt =>
      processPhrases lt (strSplitComma ((f.last_teammate_feedback).getD "")) [] [] st

def processFeedback (st : BuildState) (f : StudentFeedback) : Except BuildErr BuildState :=
  match alookup st.students f.school_username with
  | none => .ok st
  | some s0 =>
    let s :=
      if f.solo = "Yes" then { s0 with ok_solo := true }
      else if f.solo = "No" then { s0 with ok_solo := false }
      else s0
    match stageLastTeammate st f with
    | .error e => .error e
    | .ok (fbv, fbw, st) =>
      let s := { s with
        vetos := applyVetoFields st.student_classification s.vetos f.veto0 f.veto1 f.veto2 fbv }
      let s := { s with
        wants := applyVetoFields st.student_classification s.wants f.want0 f.want1 f.want2 fbw }
      .ok { st with students := ainsert st.students f.school_username s }

/-- The feedback loop over all records. -/
def feedbackPhase : List StudentFeedback → BuildState → Except BuildErr BuildState
  | [], st => .ok st
  | f :: rest, st =>
    match processFeedback st f with
    | .error e => .error e
    | .ok st2 => feedbackPhase rest st2

/-- The final merge for one person (lines 350-380): fold vetos into
repulsors and wants into attractors, then for every label of the person union
the label attract set into classification_attractors and the label repel set
into repulsors (a label with no relation entry only warns). -/
def mergeStudent (st : BuildState) (s : Student) : Except BuildErr Student :=
  let reps := s.vetos.foldl setInsert s.repulsors
  let atts := s.wants.foldl setInsert s.attractors
  match alookup st.student_classification s.school_username with
  | none => .error .lookupFailure
  | some classes =>
    let folded := classes.foldl
      (fun (acc : List String × List String) cls =>
        let ca := match alookup st.attractor_class cls with
          | some att => unionSet acc.1 att
          | none => acc.1
        let rp := match alookup st.repulsor_class cls with
          | some rep => unionSet acc.2 rep
          | none => acc.2
        (ca, rp))
      (s.classification_attractors, reps)
    .ok { s with
      attractors := atts
      classification_attractors := folded.1
      repulsors := folded.2 }

def mergePhase (st : BuildState) : List (String × Student) → Except BuildErr (List (String × Student))
  | [] => .ok []
  | (k, s) :: rest =>
    match mergeStudent st s with
    | .error e => .error e
    | .ok s2 =>
      match mergePhase st rest with
      | .error e => .error e
      | .ok rest2 => .ok ((k, s2) :: rest2)

/-- Step 3 of the builder: fold every relation record over the category
snapshot. -/
def relationPhase (cr : List ClassificationRelations) (st : BuildState) : BuildState :=
  cr.foldl relationStep st

/-- Step 4 of the builder (lines 212-215): the alias table from github
username to school username, built from every feedback record up front. -/
def aliasPhase (fb : List StudentFeedback) (st : BuildState) : BuildState :=
  { st with
    gh2school := fb.foldl (fun m f => ainsert m f.github_username f.school_username) st.gh2school }

/-- student_matrix (lines 115-383): seed the models from classification
records, propagate relations over the category snapshot, build the alias
table from all feedback records, fuse the feedback, and merge everything into
the final per-person sets. -/
def student_matrix (fb : List StudentFeedback) (sc : List StudentClassification)
    (cr : List ClassificationRelations) : Except BuildErr Students :=
  match seedStudents sc emptyBuildState with
  | .error e => .error e
  | .ok st1 =>
    match feedbackPhase fb (aliasPhase fb (relationPhase cr st1)) with
    | .error e => .error e
    | .ok st4 => mergePhase st4 st4.students

/-
Helper lemmas shared by several claim theorems.
-/

theorem alookup_isSome_of_mem {β : Type} (m : List (String × β)) (k : String)
    (h : k ∈ m.map (fun p => p.1)) : (alookup m k).isSome := by
  induction m with
  | nil => simp at h
  | cons p rest ih =>
    simp only [List.map_cons, List.mem_cons] at h
    by_cases hk : p.1 = k
    · simp [alookup, List.find?, hk]
    · have hmem : k ∈ rest.map (fun q => q.1) := by
        rcases h with h1 | h1
        · exact absurd h1.symm hk
        · exact h1
      have hres := ih hmem
      have hne : (p.1 == k) = false := by simpa using hk
      simpa [alookup, List.find?, hne] using hres

theorem lookupStudent_isSome_of_mem (students : Students) (k : String)
    (h : k ∈ students.map (fun p => p.1)) : (lookupStudent students k).isSome :=
  alookup_isSome_of_mem students k h

theorem chunksOf2_flatten : ∀ l : List String, (chunksOf2 l).flatten = l
  | [] => rfl
  | [a] => rfl
  | a :: b :: rest => by
    simp [chunksOf2, List.flatten, chunksOf2_flatten rest]

theorem chunksOf2_length_mem : ∀ l : List String, 2 ∣ l.length →
    ∀ c ∈ chunksOf2 l, c.length = 2
  | [], _, c, hc => by simp [chunksOf2] at hc
  | [a], h, c, hc => by simp at h
  | a :: b :: rest, h, c, hc => by
    simp [chunksOf2] at hc
    rcases hc with rfl | hc
    · rfl
    · refine chunksOf2_length_mem rest ?_ c hc
      simp at h
      omega

theorem scoreTeams_length (students : Students) :
    ∀ (a : List Team) (gs : List Nat), scoreTeams students a = .ok gs → gs.length = a.length
  | [], gs, h => by
    simp [scoreTeams] at h
    simp [← h]
  | t :: rest, gs, h => by
    cases hg : teamGoodness students t.members with
    | error e => simp [scoreTeams, hg] at h
    | ok g =>
      cases hr : scoreTeams students rest with
      | error e => simp [scoreTeams, hg, hr] at h
      | ok gs2 =>
        simp [scoreTeams, hg, hr] at h
        have := scoreTeams_length students rest gs2 hr
        simp [← h, this]

theorem zipScore_members :
    ∀ (a : List Team) (gs : List Nat), gs.length = a.length →
      ((a.zip gs).map (fun p => Team.mk p.1.members p.2)).map (fun t => t.members) =
        a.map (fun t => t.members)
  | [], _, _ => by simp
  | t :: rest, [], h => by simp at h
  | t :: rest, g :: gs, h => by
    simp at h
    simpa using zipScore_members rest gs h

theorem validate_members (students : Students) (a p : List Team) (g : Nat)
    (h : validate_assignment students a = .ok (p, g)) :
    p.map (fun t => t.members) = a.map (fun t => t.members) := by
  cases hs : scoreTeams students a with
  | error e => simp [validate_assignment, hs] at h
  | ok gs =>
    simp [validate_assignment, hs] at h
    have hl := scoreTeams_length students a gs hs
    rw [← h.1]
    exact zipScore_members a gs hl


theorem memberScoreAux_ok_pairfree (students : Students) (s1 : String) :
    ∀ (l : List String) (acc g : Nat), memberScoreAux students s1 acc l = .ok g →
      ∀ s2 ∈ l, s1 ≠ s2 → ∀ st, lookupStudent students s1 = some st →
        st.repulsors.contains s2 = false
  | [], acc, g, _, s2, hs2, _, _, _ => by simp at hs2
  | s2h :: rest, acc, g, h, s2, hs2, hne, st, hst => by
    simp only [memberScoreAux] at h
    rcases List.mem_cons.mp hs2 with rfl | hmem
    · rw [if_neg hne] at h
      simp only [hst] at h
      by_cases hc : st.repulsors.contains s2 = true
      · simp only [hc, if_true, reduceIte] at h
        exact Except.noConfusion h
      · simpa using hc
    · by_cases he : s1 = s2h
      · rw [if_pos he] at h
        exact memberScoreAux_ok_pairfree students s1 rest acc g h s2 hmem hne st hst
      · rw [if_neg he] at h
        simp only [hst] at h
        by_cases hc : st.repulsors.contains s2h = true
        · simp only [hc, if_true, reduceIte] at h
          exact Except.noConfusion h
        · have hcf : st.repulsors.contains s2h = false := by simpa using hc
          simp only [hcf, Bool.false_eq_true, if_false, reduceIte] at h
          exact memberScoreAux_ok_pairfree students s1 rest _ g h s2 hmem hne st hst

theorem teamGoodnessAux_ok_member (students : Students) (members : List String) :
    ∀ (l : List String) (acc g : Nat), teamGoodnessAux students members acc l = .ok g →
      ∀ s1 ∈ l, ∃ acc2 g2, memberScoreAux students s1 acc2 members = .ok g2
  | [], acc, g, _, s1, hs1 => by simp at hs1
  | s1h :: rest, acc, g, h, s1, hs1 => by
    cases hm : memberScoreAux students s1h acc members with
    | error e =>
      simp only [teamGoodnessAux, hm] at h
      exact Except.noConfusion h
    | ok acc2 =>
      simp only [teamGoodnessAux, hm] at h
      rcases List.mem_cons.mp hs1 with rfl | hmem
      · exact ⟨acc, acc2, hm⟩
      · exact teamGoodnessAux_ok_member students members rest acc2 g h s1 hmem

theorem scoreTeams_ok_team (students : Students) :
    ∀ (a : List Team) (gs : List Nat), scoreTeams students a = .ok gs →
      ∀ t ∈ a, ∃ g, teamGoodness students t.members = .ok g
  | [], gs, _, t, ht => by simp at ht
  | t0 :: rest, gs, h, t, ht => by
    cases hg : teamGoodness students t0.members with
    | error e =>
      simp only [scoreTeams, hg] at h
      exact Except.noConfusion h
    | ok g0 =>
      cases hr : scoreTeams students rest with
      | error e =>
        simp only [scoreTeams, hg, hr] at h
        exact Except.noConfusion h
      | ok gs2 =>
        rcases List.mem_cons.mp ht with rfl | hmem
        · exact ⟨g0, hg⟩
        · exact scoreTeams_ok_team students rest gs2 hr t hmem

theorem validate_ok_pairfree (students : Students) (a p : List Team) (g : Nat)
    (h : validate_assignment students a = .ok (p, g)) :
    ∀ t ∈ a, ∀ x ∈ t.members, ∀ y ∈ t.members, x ≠ y →
      ∀ sx, lookupStudent students x = some sx → sx.repulsors.contains y = false := by
  intro t ht x hx y hy hne sx hsx
  cases hs : scoreTeams students a with
  | error e => simp [validate_assignment, hs] at h
  | ok gs =>
    obtain ⟨tg, htg⟩ := scoreTeams_ok_team students a gs hs t ht
    have htg2 : teamGoodnessAux students t.members 0 t.members = .ok tg := htg
    obtain ⟨acc2, g2, hm⟩ :=
      teamGoodnessAux_ok_member students t.members t.members 0 tg htg2 x hx
    exact memberScoreAux_ok_pairfree students x t.members acc2 g2 hm y hy hne sx hsx

theorem solveLoop_ok_some (students : Students) (rng : Nat → List String → List String)
    (P : List String → Prop) (hstep : ∀ i l, P l → P (rng i l)) :
    ∀ (iters idx : Nat) (d : List String) (best : Option (List Team)) (h : Nat)
      (out : Option (List Team)),
      P d →
      (∀ p0, best = some p0 → ∃ d0 g, P d0 ∧
        validate_assignment students (mkAssignment d0) = .ok (p0, g)) →
      solveLoop students rng idx iters d best h = .ok out →
      ∀ p0, out = some p0 → ∃ d0 g, P d0 ∧
        validate_assignment students (mkAssignment d0) = .ok (p0, g)
  | 0, idx, d, best, h, out, hP, hbest, hrun, p0, hout => by
    simp only [solveLoop] at hrun
    have hbo : best = out := by simpa using hrun
    exact hbest p0 (hbo.trans hout)
  | iters + 1, idx, d, best, h, out, hP, hbest, hrun, p0, hout => by
    simp only [solveLoop] at hrun
    cases hv : validate_assignment students (mkAssignment (rng idx d)) with
    | error e =>
      cases e with
      | lookupFailure =>
        simp only [hv] at hrun
        exact Except.noConfusion hrun
      | invalid =>
        simp only [hv] at hrun
        exact solveLoop_ok_some students rng P hstep iters (idx + 1) (rng idx d) best h out
          (hstep idx d hP) hbest hrun p0 hout
    | ok r =>
      obtain ⟨sc, g⟩ := r
      simp only [hv] at hrun
      by_cases hlt : h < g
      · rw [if_pos hlt] at hrun
        refine solveLoop_ok_some students rng P hstep iters (idx + 1) (rng idx d) (some sc) g out
          (hstep idx d hP) ?_ hrun p0 hout
        intro p1 hp1
        have hscp : sc = p1 := by simpa using hp1
        exact hscp ▸ ⟨rng idx d, g, hstep idx d hP, hv⟩
      · rw [if_neg hlt] at hrun
        exact solveLoop_ok_some students rng P hstep iters (idx + 1) (rng idx d) best h out
          (hstep idx d hP) hbest hrun p0 hout

theorem solveLoop_const_stable (students : Students) (rng : Nat → List String → List String)
    (hid : ∀ i l, rng i l = l) (d : List String) (sc : List Team) (g : Nat)
    (hv : validate_assignment students (mkAssignment d) = .ok (sc, g)) :
    ∀ (iters idx h : Nat) (best : Option (List Team)), ¬ h < g →
      solveLoop students rng idx iters d best h = .ok best
  | 0, idx, h, best, _ => by simp only [solveLoop]
  | iters + 1, idx, h, best, hle => by
    simp only [solveLoop, hid, hv]
    rw [if_neg hle]
    exact solveLoop_const_stable students rng hid d sc g hv iters (idx + 1) h best hle

theorem solveLoop_const_improve (students : Students) (rng : Nat → List String → List String)
    (hid : ∀ i l, rng i l = l) (d : List String) (sc : List Team) (g : Nat)
    (hv : validate_assignment students (mkAssignment d) = .ok (sc, g))
    (iters idx h : Nat) (best : Option (List Team)) (hlt : h < g) (hnz : iters ≠ 0) :
    solveLoop students rng idx iters d best h = .ok (some sc) := by
  cases iters with
  | zero => exact absurd rfl hnz
  | succ n =>
    simp only [solveLoop, hid, hv]
    rw [if_pos hlt]
    exact solveLoop_const_stable students rng hid d sc g hv n (idx + 1) g (some sc)
      (lt_irrefl g)

/-- The ok_solo flag of a draft member, as the pre-pass reads it. -/
def okSoloPred (students : Students) (n : String) : Bool :=
  ((lookupStudent students n).map (fun s => s.ok_solo)).getD false

/-- How many members of a list have their ok_solo flag set. -/
def soloCount (students : Students) (l : List String) : Nat :=
  l.countP (okSoloPred students)

theorem prepass_spec (students : Students) :
    ∀ (l : List String) (k : Nat),
      (∀ x ∈ l, (lookupStudent students x).isSome) →
      ∃ dp sl, prepass students k l = .ok (dp, sl) ∧
        (dp ++ sl).Perm l ∧
        sl.length = min k (soloCount students l) ∧
        dp.length + sl.length = l.length
  | [], k, _ => ⟨[], [], rfl, by simp, by simp [soloCount], by simp⟩
  | n :: rest, k, hmem => by
    have hn := hmem n (List.mem_cons_self n rest)
    obtain ⟨s, hs⟩ := Option.isSome_iff_exists.mp hn
    have hrest : ∀ x ∈ rest, (lookupStudent students x).isSome :=
      fun x hx => hmem x (List.mem_cons_of_mem n hx)
    have hcount : soloCount students (n :: rest) =
        soloCount students rest + (if s.ok_solo then 1 else 0) := by
      simp [soloCount, List.countP_cons, okSoloPred, hs]
    by_cases hc : (s.ok_solo : Prop) ∧ 0 < k
    · obtain ⟨dp, sl, hpp, hperm, hlen, hsum⟩ := prepass_spec students rest (k - 1) hrest
      refine ⟨dp, n :: sl, ?_, ?_, ?_, ?_⟩
      · simp only [prepass, hs]
        rw [if_pos hc, hpp]
      · exact List.perm_middle.trans (hperm.cons n)
      · rw [hcount]
        simp only [List.length_cons]
        rw [hlen]
        have hsolo : s.ok_solo = true := hc.1
        have hk : 0 < k := hc.2
        simp only [hsolo, if_true, reduceIte]
        omega
      · simp only [List.length_cons]
        omega
    · obtain ⟨dp, sl, hpp, hperm, hlen, hsum⟩ := prepass_spec students rest k hrest
      refine ⟨n :: dp, sl, ?_, ?_, ?_, ?_⟩
      · simp only [prepass, hs]
        rw [if_neg hc, hpp]
      · simpa using hperm.cons n
      · rw [hcount, hlen]
        by_cases hsolo : s.ok_solo = true
        · have hk : k = 0 := by
            rcases Nat.eq_zero_or_pos k with h0 | h0
            · exact h0
            · exact absurd ⟨hsolo, h0⟩ hc
          simp only [hsolo, if_true, hk, reduceIte]
          omega
        · have hsf : s.ok_solo = false := by simpa using hsolo
          simp only [hsf, Bool.false_eq_true, if_false, reduceIte]
          omega
      · simp only [List.length_cons]
        omega

theorem mkAssignment_members (d : List String) :
    (mkAssignment d).map (fun t => t.members) = chunksOf2 d := by
  simp only [mkAssignment, List.map_map]
  show List.map (fun ms => ms) (chunksOf2 d) = chunksOf2 d
  simp

theorem solve_rng_even (students : Students) (iters : Nat)
    (rng : Nat → List String → List String)
    (h0 : (students.map (fun q => q.1)).length % teamsz = 0) :
    solve_rng students iters rng =
      solveLoop students rng 0 iters (students.map (fun q => q.1)) none 0 := by
  simp only [solve_rng]
  rw [if_pos h0]

theorem solve_rng_odd_build (students : Students) (iters : Nat)
    (rng : Nat → List String → List String) (dp sl : List String) (b : List Team)
    (hne : ¬ (students.map (fun q => q.1)).length % teamsz = 0)
    (hpp : prepass students ((students.map (fun q => q.1)).length % teamsz)
      (rng 0 (students.map (fun q => q.1))) = .ok (dp, sl))
    (hloop : solveLoop students rng 1 iters dp none 0 = .ok (some b)) :
    solve_rng students iters rng = .ok (some (b ++ sl.map (fun s => Team.mk [s] 0))) := by
  simp only [solve_rng]
  rw [if_neg hne]
  simp only [hpp, hloop]

theorem solve_rng_ok_some_inv (students : Students) (iters : Nat)
    (rng : Nat → List String → List String) (p : List Team)
    (h : solve_rng students iters rng = .ok (some p)) :
    ((students.map (fun q => q.1)).length % teamsz = 0 ∧
      solveLoop students rng 0 iters (students.map (fun q => q.1)) none 0 = .ok (some p)) ∨
    (¬ (students.map (fun q => q.1)).length % teamsz = 0 ∧ ∃ dp sl b,
      prepass students ((students.map (fun q => q.1)).length % teamsz)
        (rng 0 (students.map (fun q => q.1))) = .ok (dp, sl) ∧
      solveLoop students rng 1 iters dp none 0 = .ok (some b) ∧
      p = b ++ sl.map (fun s => Team.mk [s] 0)) := by
  simp only [solve_rng] at h
  by_cases h0 : (students.map (fun q => q.1)).length % teamsz = 0
  · rw [if_pos h0] at h
    exact Or.inl ⟨h0, h⟩
  · rw [if_neg h0] at h
    cases hpp : prepass students ((students.map (fun q => q.1)).length % teamsz)
        (rng 0 (students.map (fun q => q.1))) with
    | error e =>
      simp only [hpp] at h
      exact Except.noConfusion h
    | ok r =>
      obtain ⟨dp, sl⟩ := r
      simp only [hpp] at h
      cases hlp : solveLoop students rng 1 iters dp none 0 with
      | error e =>
        simp only [hlp] at h
        exact Except.noConfusion h
      | ok ob =>
        cases ob with
        | none =>
          simp only [hlp] at h
          simp at h
        | some b =>
          simp only [hlp] at h
          have hpb : b ++ sl.map (fun s => Team.mk [s] 0) = p := by simpa using h
          exact Or.inr ⟨h0, dp, sl, b, rfl, hlp, hpb.symm⟩

/-
Concrete populations used by witnesses and counterexamples.
-/

/-- A student who wants b as a teammate. -/
def studentLikerA : Student := { Student.new "a@x" "a" "ag" with attractors := ["b"] }

def studentPlainA : Student := Student.new "a@x" "a" "ag"

def studentPlainB : Student := Student.new "b@x" "b" "bg"

def studentPlainC : Student := Student.new "c@x" "c" "cg"

/-- A student who repels a. -/
def studentHaterC : Student := { Student.new "c@x" "c" "cg" with repulsors := ["a"] }

/-- Two students with no survey signals: every pairing is valid with score 0. -/
def plainPair : Students := [("a", studentPlainA), ("b", studentPlainB)]

/-- Two students where a wants b: the unique pairing scores 3. -/
def likedPair : Students := [("a", studentLikerA), ("b", studentPlainB)]

/-- Three students, none solo-eligible, where a wants b. -/
def oddTrio : Students := [("a", studentLikerA), ("b", studentPlainB), ("c", studentPlainC)]

/-- Three students, none solo-eligible, where a wants b and c repels a. -/
def mixedTrio : Students := [("a", studentLikerA), ("b", studentPlainB), ("c", studentHaterC)]

theorem solve_likedPair : solve likedPair idRng = .ok (some [Team.mk ["a", "b"] 3]) := by
  have hv : validate_assignment likedPair (mkAssignment ["a", "b"]) =
      .ok ([Team.mk ["a", "b"] 3], 3) := by decide
  have hloop := solveLoop_const_improve likedPair idRng (fun _ _ => rfl) ["a", "b"]
    [Team.mk ["a", "b"] 3] 3 hv (2 ^ 20) 0 0 none (by omega) (by norm_num)
  have heven := solve_rng_even likedPair (2 ^ 20) idRng (by decide)
  show solve_rng likedPair (2 ^ 20) idRng = _
  rw [heven]
  exact hloop

theorem solve_oddTrio :
    solve oddTrio idRng = .ok (some [Team.mk ["a", "b"] 3, Team.mk ["c"] 0]) := by
  have hv : validate_assignment oddTrio (mkAssignment ["a", "b", "c"]) =
      .ok ([Team.mk ["a", "b"] 3, Team.mk ["c"] 0], 3) := by decide
  have hloop := solveLoop_const_improve oddTrio idRng (fun _ _ => rfl) ["a", "b", "c"]
    [Team.mk ["a", "b"] 3, Team.mk ["c"] 0] 3 hv (2 ^ 20) 1 0 none (by omega) (by norm_num)
  have hbuild := solve_rng_odd_build oddTrio (2 ^ 20) idRng ["a", "b", "c"] [] 
    [Team.mk ["a", "b"] 3, Team.mk ["c"] 0] (by decide) (by decide) hloop
  show solve_rng oddTrio (2 ^ 20) idRng = _
  rw [hbuild]
  simp

theorem solve_mixedTrio :
    solve mixedTrio idRng = .ok (some [Team.mk ["a", "b"] 3, Team.mk ["c"] 0]) := by
  have hv : validate_assignment mixedTrio (mkAssignment ["a", "b", "c"]) =
      .ok ([Team.mk ["a", "b"] 3, Team.mk ["c"] 0], 3) := by decide
  have hloop := solveLoop_const_improve mixedTrio idRng (fun _ _ => rfl) ["a", "b", "c"]
    [Team.mk ["a", "b"] 3, Team.mk ["c"] 0] 3 hv (2 ^ 20) 1 0 none (by omega) (by norm_num)
  have hbuild := solve_rng_odd_build mixedTrio (2 ^ 20) idRng ["a", "b", "c"] [] 
    [Team.mk ["a", "b"] 3, Team.mk ["c"] 0] (by decide) (by decide) hloop
  show solve_rng mixedTrio (2 ^ 20) idRng = _
  rw [hbuild]
  simp

/-- C1: the claim says solve returns the failure signal if and only if no
trial produced a valid partition, valid zero-score partitions included.  The
code violates this: with two students and no survey signals every trial
yields the same valid partition with total score 0, yet solve returns none,
because a candidate is kept only when its score strictly exceeds the initial
highest score 0 (line 482).  This theorem evaluates the code at the failing
input: the unique trial partition validates with score 0, and solve still
returns the failure signal. -/
theorem c1_zero_score_partition_dropped :
    solve plainPair idRng = .ok none ∧
    validate_assignment plainPair (mkAssignment ["a", "b"]) =
      .ok ([Team.mk ["a", "b"] 0], 0) := by
  constructor
  · have hv : validate_assignment plainPair (mkAssignment ["a", "b"]) =
        .ok ([Team.mk ["a", "b"] 0], 0) := by decide
    have hstable := solveLoop_const_stable plainPair idRng (fun _ _ => rfl) ["a", "b"]
      [Team.mk ["a", "b"] 0] 0 hv (2 ^ 20) 0 0 none (lt_irrefl 0)
    have heven := solve_rng_even plainPair (2 ^ 20) idRng (by decide)
    show solve_rng plainPair (2 ^ 20) idRng = _
    rw [heven]
    exact hstable
  · decide

/-- C9: with the random number generator embedded as an explicit input (the
code draws it from thread_rng at line 442; under a fixed seed it is a fixed
stream), solve is a deterministic function of the student map and the rng
stream: two runs on identical inputs return identical outputs. -/
theorem c9_deterministic (s1 s2 : Students) (r1 r2 : Nat → List String → List String)
    (hs : s1 = s2) (hr : r1 = r2) : solve s1 r1 = solve s2 r2 := by
  rw [hs, hr]

theorem c9_witness : solve plainPair idRng = solve plainPair idRng :=
  c9_deterministic plainPair plainPair idRng idRng rfl rfl

/-- C2 counterexample: with three students none of whom is solo-eligible, the
pre-pass peels off nobody, the reduced draft pool has size 3 (not divisible
by teamsz even though population mod teamsz is 1), no straggler singleton is
appended, and the returned partition contains the team of c alone with size
1, different from teamsz. -/
theorem c2_counterexample :
    solve oddTrio idRng = .ok (some [Team.mk ["a", "b"] 3, Team.mk ["c"] 0]) ∧
    prepass oddTrio ((oddTrio.map (fun q => q.1)).length % teamsz)
      (oddTrio.map (fun q => q.1)) = .ok (["a", "b", "c"], []) ∧
    (oddTrio.map (fun q => q.1)).length % teamsz = 1 ∧
    ¬ teamsz ∣ (["a", "b", "c"] : List String).length ∧
    (Team.mk ["c"] 0).members.length ≠ teamsz :=
  ⟨solve_oddTrio, by decide, by decide, by decide, by decide⟩

/-- C2 amended: the coverage claim holds provided at least population mod
teamsz people have ok_solo set (the pre-pass is first-fit over solo-eligible
people only): any returned partition splits into main teams of size exactly
teamsz followed by straggler singletons, the straggler count equals
population mod teamsz, and every person appears exactly once across the
partition (the concatenation of the members is a permutation of the
population). -/
theorem c2_amended (students : Students) (rng : Nat → List String → List String) (p : List Team)
    (hperm : ∀ i l, (rng i l).Perm l)
    (hsolo : (students.map (fun q => q.1)).length % teamsz ≤
      soloCount students (students.map (fun q => q.1)))
    (hrun : solve students rng = .ok (some p)) :
    ∃ main solos,
      p = main ++ solos.map (fun s => Team.mk [s] 0) ∧
      solos.length = (students.map (fun q => q.1)).length % teamsz ∧
      (∀ t ∈ main, t.members.length = teamsz) ∧
      ((main.map (fun t => t.members)).flatten ++ solos).Perm
        (students.map (fun q => q.1)) := by
  have hinv := solve_rng_ok_some_inv students (2 ^ 20) rng p hrun
  rcases hinv with ⟨h0, hloop⟩ | ⟨h0, dp, sl, b, hpp, hloop, hp⟩
  · obtain ⟨d0, g, hd0, hv⟩ := solveLoop_ok_some students rng
      (fun l => l.Perm (students.map (fun q => q.1)))
      (fun i l (hl : l.Perm (students.map (fun q => q.1))) => (hperm i l).trans hl)
      (2 ^ 20) 0 (students.map (fun q => q.1)) none 0
      (some p) (List.Perm.refl _) (fun p0 hp0 => Option.noConfusion hp0) hloop p rfl
    have hmm := validate_members students (mkAssignment d0) p g hv
    have hchunks : p.map (fun t => t.members) = chunksOf2 d0 := by
      rw [hmm, mkAssignment_members]
    have hdvd : 2 ∣ d0.length := by
      have hlen := hd0.length_eq
      simp only [teamsz] at h0
      omega
    refine ⟨p, [], by simp, by simpa using h0.symm, ?_, ?_⟩
    · intro t ht
      have hmem : t.members ∈ chunksOf2 d0 := by
        rw [← hchunks]
        exact List.mem_map_of_mem _ ht
      have := chunksOf2_length_mem d0 hdvd t.members hmem
      simpa [teamsz] using this
    · have hflat : (p.map (fun t => t.members)).flatten = d0 := by
        rw [hchunks, chunksOf2_flatten]
      simpa [hflat] using hd0
  · have hshperm : (rng 0 (students.map (fun q => q.1))).Perm
        (students.map (fun q => q.1)) := hperm 0 _
    have hmemall : ∀ x ∈ rng 0 (students.map (fun q => q.1)),
        (lookupStudent students x).isSome := by
      intro x hx
      exact lookupStudent_isSome_of_mem students x (hshperm.mem_iff.mp hx)
    obtain ⟨dp2, sl2, hpp2, hdpperm, hsllen, hsum⟩ :=
      prepass_spec students (rng 0 (students.map (fun q => q.1)))
        ((students.map (fun q => q.1)).length % teamsz) hmemall
    rw [hpp] at hpp2
    obtain ⟨heq1, heq2⟩ : dp = dp2 ∧ sl = sl2 := by simpa using hpp2
    subst heq1
    subst heq2
    have hsllen2 : sl.length = (students.map (fun q => q.1)).length % teamsz := by
      rw [hsllen]
      have hsc : soloCount students (rng 0 (students.map (fun q => q.1))) =
          soloCount students (students.map (fun q => q.1)) :=
        List.Perm.countP_eq _ hshperm
      rw [hsc]
      exact Nat.min_eq_left hsolo
    obtain ⟨d0, g, hd0, hv⟩ := solveLoop_ok_some students rng (fun l => l.Perm dp)
      (fun i l (hl : l.Perm dp) => (hperm i l).trans hl) (2 ^ 20) 1 dp none 0 (some b)
      (List.Perm.refl _) (fun p0 hp0 => Option.noConfusion hp0) hloop b rfl
    have hmm := validate_members students (mkAssignment d0) b g hv
    have hchunks : b.map (fun t => t.members) = chunksOf2 d0 := by
      rw [hmm, mkAssignment_members]
    have hdlen : d0.length = dp.length := hd0.length_eq
    have hdvd : 2 ∣ d0.length := by
      have hkeyslen : (rng 0 (students.map (fun q => q.1))).length =
          (students.map (fun q => q.1)).length := hshperm.length_eq
      simp only [teamsz] at hsllen2 h0 ⊢
      omega
    refine ⟨b, sl, hp, hsllen2, ?_, ?_⟩
    · intro t ht
      have hmem : t.members ∈ chunksOf2 d0 := by
        rw [← hchunks]
        exact List.mem_map_of_mem _ ht
      have := chunksOf2_length_mem d0 hdvd t.members hmem
      simpa [teamsz] using this
    · have hflat : (b.map (fun t => t.members)).flatten = d0 := by
        rw [hchunks, chunksOf2_flatten]
      rw [hflat]
      exact ((hd0.append_right sl).trans hdpperm).trans hshperm

theorem c2_witness :
    (∀ i l, (idRng i l).Perm l) ∧
    (likedPair.map (fun q => q.1)).length % teamsz ≤
      soloCount likedPair (likedPair.map (fun q => q.1)) ∧
    ∃ main solos,
      [Team.mk ["a", "b"] 3] = main ++ solos.map (fun s => Team.mk [s] 0) ∧
      solos.length = (likedPair.map (fun q => q.1)).length % teamsz ∧
      (∀ t ∈ main, t.members.length = teamsz) ∧
      ((main.map (fun t => t.members)).flatten ++ solos).Perm
        (likedPair.map (fun q => q.1)) :=
  ⟨fun _ l => List.Perm.refl l, by decide,
    c2_amended likedPair idRng [Team.mk ["a", "b"] 3] (fun _ l => List.Perm.refl l)
      (by decide) solve_likedPair⟩

theorem memberScoreAux_no_lf (students : Students) (s1 : String)
    (hs1 : (lookupStudent students s1).isSome) :
    ∀ (l : List String) (acc : Nat), memberScoreAux students s1 acc l ≠ .error .lookupFailure
  | [], acc => by simp [memberScoreAux]
  | s2 :: rest, acc => by
    obtain ⟨st, hst⟩ := Option.isSome_iff_exists.mp hs1
    simp only [memberScoreAux]
    by_cases he : s1 = s2
    · rw [if_pos he]
      exact memberScoreAux_no_lf students s1 hs1 rest acc
    · rw [if_neg he]
      simp only [hst]
      by_cases hc : st.repulsors.contains s2 = true
      · simp only [hc, if_true, reduceIte]
        decide
      · have hcf : st.repulsors.contains s2 = false := by simpa using hc
        simp only [hcf, Bool.false_eq_true, if_false, reduceIte]
        exact memberScoreAux_no_lf students s1 hs1 rest _

theorem teamGoodnessAux_no_lf (students : Students) (members : List String) :
    ∀ (l : List String) (acc : Nat), (∀ s1 ∈ l, (lookupStudent students s1).isSome) →
      teamGoodnessAux students members acc l ≠ .error .lookupFailure
  | [], acc, _ => by simp [teamGoodnessAux]
  | s1 :: rest, acc, hl => by
    cases hm : memberScoreAux students s1 acc members with
    | error e =>
      cases e with
      | lookupFailure =>
        exact absurd hm
          (memberScoreAux_no_lf students s1 (hl s1 (List.mem_cons_self _ _)) members acc)
      | invalid =>
        simp only [teamGoodnessAux, hm]
        decide
    | ok acc2 =>
      simp only [teamGoodnessAux, hm]
      exact teamGoodnessAux_no_lf students members rest acc2
        (fun x hx => hl x (List.mem_cons_of_mem _ hx))

theorem scoreTeams_no_lf (students : Students) :
    ∀ (a : List Team), (∀ t ∈ a, ∀ x ∈ t.members, (lookupStudent students x).isSome) →
      scoreTeams students a ≠ .error .lookupFailure
  | [], _ => by simp [scoreTeams]
  | t :: rest, hl => by
    cases hg : teamGoodness students t.members with
    | error e =>
      cases e with
      | lookupFailure =>
        exact absurd hg (teamGoodnessAux_no_lf students t.members t.members 0
          (fun x hx => hl t (List.mem_cons_self _ _) x hx))
      | invalid =>
        simp only [scoreTeams, hg]
        decide
    | ok g =>
      cases hr : scoreTeams students rest with
      | error e =>
        cases e with
        | lookupFailure =>
          exact absurd hr (scoreTeams_no_lf students rest
            (fun t2 ht2 => hl t2 (List.mem_cons_of_mem _ ht2)))
        | invalid =>
          simp only [scoreTeams, hg, hr]
          decide
      | ok gs =>
        simp only [scoreTeams, hg, hr]
        simp

theorem validate_no_lf (students : Students) (a : List Team)
    (hl : ∀ t ∈ a, ∀ x ∈ t.members, (lookupStudent students x).isSome) :
    validate_assignment students a ≠ .error .lookupFailure := by
  cases hs : scoreTeams students a with
  | error e =>
    cases e with
    | lookupFailure => exact absurd hs (scoreTeams_no_lf students a hl)
    | invalid => simp [validate_assignment, hs]
  | ok gs => simp [validate_assignment, hs]

/-- C3: hard-constraint soundness.  First part: any partition returned by
solve contains no team with members x and y, x different from y, where the
repulsors of x contain y (the check runs over all ordered pairs, so both
directions are covered).  Second part: whenever some ordered pair of distinct
teammates in an assignment has the first member considering the second a
repulsor (and all members are known, so the lookup panic does not fire
first), validate_assignment discards the trial by returning the invalid
signal, the embedding of the Rust None. -/
theorem c3_hard_constraint (students : Students) (rng : Nat → List String → List String)
    (p a : List Team) :
    (solve students rng = .ok (some p) →
      ∀ t ∈ p, ∀ x ∈ t.members, ∀ y ∈ t.members, x ≠ y →
        ∀ sx, lookupStudent students x = some sx → sx.repulsors.contains y = false) ∧
    ((∀ t ∈ a, ∀ x ∈ t.members, (lookupStudent students x).isSome) →
      (∃ t ∈ a, ∃ x ∈ t.members, ∃ y ∈ t.members, x ≠ y ∧
        ∃ sx, lookupStudent students x = some sx ∧ sx.repulsors.contains y = true) →
      validate_assignment students a = .error .invalid) := by
  constructor
  · intro hrun t ht x hx y hy hne sx hsx
    rcases solve_rng_ok_some_inv students (2 ^ 20) rng p hrun with
      ⟨h0, hloop⟩ | ⟨h0, dp, sl, b, hpp, hloop, hp⟩
    · obtain ⟨d0, g, _, hv⟩ := solveLoop_ok_some students rng (fun _ => True)
        (fun _ _ _ => trivial) (2 ^ 20) 0 (students.map (fun q => q.1)) none 0 (some p)
        trivial (fun p0 hp0 => Option.noConfusion hp0) hloop p rfl
      have hmm := validate_members students (mkAssignment d0) p g hv
      have hmem : t.members ∈ (mkAssignment d0).map (fun t => t.members) := by
        rw [← hmm]
        exact List.mem_map_of_mem _ ht
      obtain ⟨t2, ht2, hteq⟩ := List.mem_map.mp hmem
      exact validate_ok_pairfree students (mkAssignment d0) p g hv t2 ht2 x
        (by rw [hteq]; exact hx) y (by rw [hteq]; exact hy) hne sx hsx
    · subst hp
      rcases List.mem_append.mp ht with hb | hsolo
      · obtain ⟨d0, g, _, hv⟩ := solveLoop_ok_some students rng (fun _ => True)
          (fun _ _ _ => trivial) (2 ^ 20) 1 dp none 0 (some b)
          trivial (fun p0 hp0 => Option.noConfusion hp0) hloop b rfl
        have hmm := validate_members students (mkAssignment d0) b g hv
        have hmem : t.members ∈ (mkAssignment d0).map (fun t => t.members) := by
          rw [← hmm]
          exact List.mem_map_of_mem _ hb
        obtain ⟨t2, ht2, hteq⟩ := List.mem_map.mp hmem
        exact validate_ok_pairfree students (mkAssignment d0) b g hv t2 ht2 x
          (by rw [hteq]; exact hx) y (by rw [hteq]; exact hy) hne sx hsx
      · obtain ⟨s, _, hteq⟩ := List.mem_map.mp hsolo
        rw [← hteq] at hx hy
        simp at hx hy
        exact absurd (hx.trans hy.symm) hne
  · intro hlk hex
    obtain ⟨t, ht, x, hx, y, hy, hne, sx, hsx, hrep⟩ := hex
    cases hval : validate_assignment students a with
    | ok r =>
      obtain ⟨p2, g2⟩ := r
      have hfree := validate_ok_pairfree students a p2 g2 hval t ht x hx y hy hne sx hsx
      rw [hfree] at hrep
      exact Bool.noConfusion hrep
    | error e =>
      cases e with
      | invalid => rfl
      | lookupFailure => exact absurd hval (validate_no_lf students a hlk)

theorem c3_witness :
    (∀ t ∈ [Team.mk ["a", "b"] 3, Team.mk ["c"] 0], ∀ x ∈ t.members, ∀ y ∈ t.members,
      x ≠ y → ∀ sx, lookupStudent mixedTrio x = some sx → sx.repulsors.contains y = false) ∧
    validate_assignment mixedTrio [Team.mk ["c", "a"] 0] = .error .invalid := by
  have h := c3_hard_constraint mixedTrio idRng [Team.mk ["a", "b"] 3, Team.mk ["c"] 0]
    [Team.mk ["c", "a"] 0]
  refine ⟨h.1 solve_mixedTrio, h.2 (by decide) ?_⟩
  exact ⟨Team.mk ["c", "a"] 0, by decide, "c", by decide, "a", by decide, by decide,
    studentHaterC, by decide, by decide⟩

/-- The score of one team as the spec words it: the sum over ordered pairs
(s1, s2) of distinct teammates of the pairScore of s1 toward s2. -/
def teamScoreSpec (students : Students) (members : List String) : Nat :=
  (members.map (fun s1 =>
    (members.map (fun s2 =>
      if s1 = s2 then 0
      else
        match lookupStudent students s1 with
        | none => 0
        | some st => pairScore st s2)).sum)).sum

theorem memberScoreAux_eval (students : Students) (s1 : String) (st : Student)
    (hst : lookupStudent students s1 = some st) :
    ∀ (l : List String) (acc : Nat),
      (∀ s2 ∈ l, s1 ≠ s2 → st.repulsors.contains s2 = false) →
      memberScoreAux students s1 acc l =
        .ok (acc + (l.map (fun s2 => if s1 = s2 then 0 else pairScore st s2)).sum)
  | [], acc, _ => by simp [memberScoreAux]
  | s2 :: rest, acc, hfree => by
    by_cases he : s1 = s2
    · simp only [memberScoreAux, if_pos he, List.map_cons, List.sum_cons]
      rw [memberScoreAux_eval students s1 st hst rest acc
        (fun x hx hne => hfree x (List.mem_cons_of_mem s2 hx) hne)]
      simp [he]
    · have hcf : st.repulsors.contains s2 = false :=
        hfree s2 (List.mem_cons_self _ _) he
      simp only [memberScoreAux, if_neg he, hst, hcf, Bool.false_eq_true, if_false,
        reduceIte, List.map_cons, List.sum_cons]
      rw [memberScoreAux_eval students s1 st hst rest (acc + pairScore st s2)
        (fun x hx hne => hfree x (List.mem_cons_of_mem s2 hx) hne)]
      congr 1
      omega

theorem teamGoodnessAux_eval (students : Students) (members : List String)
    (hlk : ∀ x ∈ members, (lookupStudent students x).isSome)
    (hfree : ∀ x ∈ members, ∀ y ∈ members, x ≠ y →
      ∀ sx, lookupStudent students x = some sx → sx.repulsors.contains y = false) :
    ∀ (l : List String) (acc : Nat), (∀ x ∈ l, x ∈ members) →
      teamGoodnessAux students members acc l =
        .ok (acc + (l.map (fun s1 =>
          (members.map (fun s2 =>
            if s1 = s2 then 0
            else
              match lookupStudent students s1 with
              | none => 0
              | some st => pairScore st s2)).sum)).sum)
  | [], acc, _ => by simp [teamGoodnessAux]
  | s1 :: rest, acc, hsub => by
    have hs1m : s1 ∈ members := hsub s1 (List.mem_cons_self _ _)
    obtain ⟨st, hst⟩ := Option.isSome_iff_exists.mp (hlk s1 hs1m)
    have hms := memberScoreAux_eval students s1 st hst members acc
      (fun s2 hs2 hne => hfree s1 hs1m s2 hs2 hne st hst)
    simp only [teamGoodnessAux, hms, List.map_cons, List.sum_cons]
    rw [teamGoodnessAux_eval students members hlk hfree rest
      (acc + (members.map (fun s2 => if s1 = s2 then 0 else pairScore st s2)).sum)
      (fun x hx => hsub x (List.mem_cons_of_mem s1 hx))]
    simp only [hst]
    congr 1
    omega

theorem scoreTeams_eval (students : Students) :
    ∀ (a : List Team),
      (∀ t ∈ a, ∀ x ∈ t.members, (lookupStudent students x).isSome) →
      (∀ t ∈ a, ∀ x ∈ t.members, ∀ y ∈ t.members, x ≠ y →
        ∀ sx, lookupStudent students x = some sx → sx.repulsors.contains y = false) →
      scoreTeams students a = .ok (a.map (fun t => teamScoreSpec students t.members))
  | [], _, _ => by simp [scoreTeams]
  | t :: rest, hlk, hfree => by
    have hg : teamGoodness students t.members = .ok (teamScoreSpec students t.members) := by
      have := teamGoodnessAux_eval students t.members
        (hlk t (List.mem_cons_self _ _)) (hfree t (List.mem_cons_self _ _))
        t.members 0 (fun x hx => hx)
      simpa [teamGoodness, teamScoreSpec] using this
    have hr := scoreTeams_eval students rest
      (fun t2 ht2 => hlk t2 (List.mem_cons_of_mem _ ht2))
      (fun t2 ht2 => hfree t2 (List.mem_cons_of_mem _ ht2))
    simp only [scoreTeams, hg, hr, List.map_cons]

theorem zip_scored_teams (f : Team → Nat) :
    ∀ (a : List Team),
      ((a.zip (a.map f)).map (fun p => Team.mk p.1.members p.2)) =
        a.map (fun t => Team.mk t.members (f t))
  | [] => rfl
  | t :: rest => by simp [zip_scored_teams f rest]

/-- C4: on a valid (repulsor-free, all members known) assignment,
validate_assignment succeeds, writes into each team the score given by the
spec scorer (sum over ordered pairs of distinct teammates of +3 for an
explicit attractor, else +1 for a classification attractor, else 0, the
cases mutually exclusive with explicit attractors first), and returns the
total equal to the sum of the team scores. -/
theorem c4_scoring (students : Students) (a : List Team)
    (hlk : ∀ t ∈ a, ∀ x ∈ t.members, (lookupStudent students x).isSome)
    (hfree : ∀ t ∈ a, ∀ x ∈ t.members, ∀ y ∈ t.members, x ≠ y →
      ((lookupStudent students x).map (fun s => s.repulsors.contains y)).getD false = false) :
    validate_assignment students a =
      .ok (a.map (fun t => Team.mk t.members (teamScoreSpec students t.members)),
        (a.map (fun t => teamScoreSpec students t.members)).sum) := by
  have hfree2 : ∀ t ∈ a, ∀ x ∈ t.members, ∀ y ∈ t.members, x ≠ y →
      ∀ sx, lookupStudent students x = some sx → sx.repulsors.contains y = false := by
    intro t ht x hx y hy hne sx hsx
    have := hfree t ht x hx y hy hne
    rw [hsx] at this
    simpa using this
  have hs := scoreTeams_eval students a hlk hfree2
  simp only [validate_assignment, hs]
  rw [zip_scored_teams (fun t => teamScoreSpec students t.members) a]

theorem c4_witness :
    (∀ t ∈ [Team.mk ["a", "b"] 0], ∀ x ∈ t.members, (lookupStudent likedPair x).isSome) ∧
    (∀ t ∈ [Team.mk ["a", "b"] 0], ∀ x ∈ t.members, ∀ y ∈ t.members, x ≠ y →
      ((lookupStudent likedPair x).map (fun s => s.repulsors.contains y)).getD false = false) ∧
    validate_assignment likedPair [Team.mk ["a", "b"] 0] =
      .ok ([Team.mk ["a", "b"] 0].map
            (fun t => Team.mk t.members (teamScoreSpec likedPair t.members)),
        ([Team.mk ["a", "b"] 0].map (fun t => teamScoreSpec likedPair t.members)).sum) :=
  ⟨by decide, by decide,
    c4_scoring likedPair [Team.mk ["a", "b"] 0] (by decide) (by decide)⟩

theorem alookup_map_replace {β : Type} (k : String) (v : β) :
    ∀ (m : List (String × β)), (m.find? (fun q => q.1 == k)).isSome = true →
      alookup (m.map (fun q => if q.1 == k then (k, v) else q)) k = some v
  | [], h => by simp [List.find?] at h
  | p :: rest, h => by
    by_cases hk : (p.1 == k) = true
    · simp only [List.map_cons, if_pos hk, alookup, List.find?]
      simp
    · have hkf : (p.1 == k) = false := by simpa using hk
      have hrest : (rest.find? (fun q => q.1 == k)).isSome = true := by
        simpa [List.find?, hkf] using h
      have hih := alookup_map_replace k v rest hrest
      simp only [List.map_cons, alookup, List.find?, hkf, Bool.false_eq_true, if_false,
        reduceIte] at hih ⊢
      exact hih

theorem alookup_append_self {β : Type} (k : String) (v : β) :
    ∀ (m : List (String × β)), ¬ (m.find? (fun q => q.1 == k)).isSome = true →
      alookup (m ++ [(k, v)]) k = some v
  | [], _ => by simp [alookup, List.find?]
  | p :: rest, h => by
    have hk : (p.1 == k) = false := by
      by_cases h2 : (p.1 == k) = true
      · exact absurd (by simp [List.find?, h2] :
          (List.find? (fun q => q.1 == k) (p :: rest)).isSome = true) h
      · simpa using h2
    have h2 : ¬ (rest.find? (fun q => q.1 == k)).isSome = true := by
      intro hx
      exact h (by simp [List.find?, hk, hx])
    have hih := alookup_append_self k v rest h2
    simp only [List.cons_append, alookup, List.find?, hk, Bool.false_eq_true, if_false,
      reduceIte] at hih ⊢
    exact hih

theorem alookup_ainsert_self {β : Type} (m : List (String × β)) (k : String) (v : β) :
    alookup (ainsert m k v) k = some v := by
  by_cases hs : (m.find? (fun q => q.1 == k)).isSome = true
  · simp only [ainsert]
    rw [if_pos hs]
    exact alookup_map_replace k v m hs
  · simp only [ainsert]
    rw [if_neg hs]
    exact alookup_append_self k v m hs

theorem alookup_map_replace_ne {β : Type} (k k2 : String) (v : β) (hne : ¬ k2 = k) :
    ∀ (m : List (String × β)),
      alookup (m.map (fun q => if q.1 == k then (k, v) else q)) k2 = alookup m k2
  | [] => by simp [alookup]
  | p :: rest => by
    by_cases hk : (p.1 == k) = true
    · have hp : p.1 = k := by simpa using hk
      have hpk2 : (p.1 == k2) = false := by
        rw [hp]
        exact beq_eq_false_iff_ne.mpr (fun he => hne he.symm)
      have hkk2 : (k == k2) = false :=
        beq_eq_false_iff_ne.mpr (fun he => hne he.symm)
      have hih := alookup_map_replace_ne k k2 v hne rest
      simp only [List.map_cons, if_pos hk, alookup, List.find?, hkk2, hpk2, Bool.false_eq_true,
        if_false, reduceIte] at hih ⊢
      exact hih
    · simp only [List.map_cons, if_neg hk, alookup, List.find?]
      by_cases hpk2 : (p.1 == k2) = true
      · simp [hpk2]
      · have h0 : (p.1 == k2) = false := by simpa using hpk2
        have hkf : (p.1 == k) = false := by simpa using hk
        have hih := alookup_map_replace_ne k k2 v hne rest
        simp only [List.map_cons, alookup, List.find?, h0, hkf, Bool.false_eq_true,
          if_false, reduceIte] at hih ⊢
        exact hih

theorem alookup_append_ne {β : Type} (k k2 : String) (v : β) (hne : ¬ k2 = k) :
    ∀ (m : List (String × β)), alookup (m ++ [(k, v)]) k2 = alookup m k2
  | [] => by
    have : (k == k2) = false := beq_eq_false_iff_ne.mpr (fun he => hne he.symm)
    simp [alookup, List.find?, this]
  | p :: rest => by
    by_cases hpk2 : (p.1 == k2) = true
    · simp [alookup, List.find?, hpk2]
    · have h0 : (p.1 == k2) = false := by simpa using hpk2
      have hih := alookup_append_ne k k2 v hne rest
      simp only [List.cons_append, alookup, List.find?, h0, Bool.false_eq_true, if_false,
        reduceIte] at hih ⊢
      exact hih

theorem alookup_ainsert_ne {β : Type} (m : List (String × β)) (k k2 : String) (v : β)
    (h : ¬ k2 = k) : alookup (ainsert m k v) k2 = alookup m k2 := by
  by_cases hs : (m.find? (fun q => q.1 == k)).isSome = true
  · simp only [ainsert]
    rw [if_pos hs]
    exact alookup_map_replace_ne k k2 v h m
  · simp only [ainsert]
    rw [if_neg hs]
    exact alookup_append_ne k k2 v h m

theorem setInsert_contains_self (l : List String) (x : String) :
    (setInsert l x).contains x = true := by
  by_cases hc : l.contains x = true
  · simp only [setInsert]
    rw [if_pos hc]
    exact hc
  · simp only [setInsert]
    rw [if_neg hc]
    simp

theorem ainsert_keys_of_isSome {β : Type} (m : List (String × β)) (k : String) (v : β)
    (h : (alookup m k).isSome) :
    (ainsert m k v).map (fun p => p.1) = m.map (fun p => p.1) := by
  have hf : (List.find? (fun q => q.1 == k) m).isSome := by
    simpa [alookup] using h
  simp only [ainsert, hf, if_true, reduceIte, List.map_map]
  apply List.map_congr_left
  intro p _
  by_cases hk : (p.1 == k) = true
  · simp only [Function.comp, hk, if_true, reduceIte]
    exact (eq_of_beq hk).symm
  · simp [Function.comp, hk]

theorem ainsert_keys_of_none {β : Type} (m : List (String × β)) (k : String) (v : β)
    (h : ¬ (alookup m k).isSome) :
    (ainsert m k v).map (fun p => p.1) = m.map (fun p => p.1) ++ [k] := by
  have hf : ¬ (List.find? (fun q => q.1 == k) m).isSome = true := by
    simpa [alookup] using h
  simp [ainsert, hf]

theorem insert_classification_students (s c : String) (st : BuildState) :
    (insert_classification s c st).students = st.students := by
  simp only [insert_classification]
  split <;> rfl

theorem insert_classification_att (s c : String) (st : BuildState) :
    (insert_classification s c st).attractor_class = st.attractor_class := by
  simp only [insert_classification]
  split <;> rfl

theorem insert_classification_rep (s c : String) (st : BuildState) :
    (insert_classification s c st).repulsor_class = st.repulsor_class := by
  simp only [insert_classification]
  split <;> rfl

theorem processPhrases_preserves (lt : String) :
    ∀ (phrases fbv fbw : List String) (st : BuildState)
      (r : List String × List String × BuildState),
      processPhrases lt phrases fbv fbw st = .ok r →
      r.2.2.students = st.students ∧ r.2.2.attractor_class = st.attractor_class ∧
        r.2.2.repulsor_class = st.repulsor_class
  | [], fbv, fbw, st, r, h => by
    have : (fbv, fbw, st) = r := by simpa [processPhrases] using h
    rw [← this]
    exact ⟨rfl, rfl, rfl⟩
  | ph :: rest, fbv, fbw, st, r, h => by
    cases hf : comment_mapping.find? (fun p => p.1 == strTrim ph) with
    | none =>
      simp only [processPhrases, hf] at h
      exact Except.noConfusion h
    | some entry =>
      obtain ⟨ph1, c, want, veto⟩ := entry
      simp only [processPhrases, hf] at h
      cases c with
      | none =>
        exact processPhrases_preserves lt rest _ _ _ r h
      | some cat =>
        have := processPhrases_preserves lt rest _ _ _ r h
        rw [insert_classification_students, insert_classification_att,
          insert_classification_rep] at this
        exact this


theorem stageLastTeammate_preserves (st : BuildState) (f : StudentFeedback)
    (r : List String × List String × BuildState)
    (h : stageLastTeammate st f = .ok r) :
    r.2.2.students = st.students ∧ r.2.2.attractor_class = st.attractor_class ∧
      r.2.2.repulsor_class = st.repulsor_class := by
  cases hlg : f.last_teammate_github_username with
  | none =>
    simp only [stageLastTeammate, hlg] at h
    have he : ([], [], st) = r := by simpa using h
    rw [← he]
    exact ⟨rfl, rfl, rfl⟩
  | some lg =>
    simp only [stageLastTeammate, hlg] at h
    cases hres : resolveLastTeammate st lg with
    | none =>
      simp only [hres] at h
      have he : ([], [], st) = r := by simpa using h
      rw [← he]
      exact ⟨rfl, rfl, rfl⟩
    | some lt =>
      simp only [hres] at h
      exact processPhrases_preserves lt _ [] [] st r h

theorem processFeedback_ok_inv (st st2 : BuildState) (f : StudentFeedback)
    (h : processFeedback st f = .ok st2) :
    st2 = st ∨
    ((alookup st.students f.school_username).isSome = true ∧
      ∃ stm, stageLastTeammate st f = .ok stm ∧ ∃ s2,
        st2 = { stm.2.2 with
          students := ainsert stm.2.2.students f.school_username s2 }) := by
  cases hs : alookup st.students f.school_username with
  | none =>
    simp only [processFeedback, hs] at h
    have he : st = st2 := by simpa using h
    exact Or.inl he.symm
  | some s0 =>
    simp only [processFeedback, hs] at h
    cases hst : stageLastTeammate st f with
    | error e =>
      simp only [hst] at h
      exact Except.noConfusion h
    | ok r =>
      obtain ⟨fbv, fbw, stm⟩ := r
      simp only [hst] at h
      have h2 := Except.ok.inj h
      exact Or.inr ⟨by simp [hs], (fbv, fbw, stm), rfl, _, h2.symm⟩

theorem processFeedback_classes (st st2 : BuildState) (f : StudentFeedback)
    (h : processFeedback st f = .ok st2) :
    st2.attractor_class = st.attractor_class ∧ st2.repulsor_class = st.repulsor_class := by
  rcases processFeedback_ok_inv st st2 f h with rfl | ⟨_, stm, hst, s2, rfl⟩
  · exact ⟨rfl, rfl⟩
  · have hp := stageLastTeammate_preserves st f stm hst
    exact ⟨hp.2.1, hp.2.2⟩

theorem processFeedback_keys (st st2 : BuildState) (f : StudentFeedback)
    (h : processFeedback st f = .ok st2) :
    st2.students.map (fun p => p.1) = st.students.map (fun p => p.1) := by
  rcases processFeedback_ok_inv st st2 f h with rfl | ⟨hsome, stm, hst, s2, rfl⟩
  · rfl
  · have hp := stageLastTeammate_preserves st f stm hst
    have hsome2 : (alookup stm.2.2.students f.school_username).isSome = true := by
      rw [hp.1]
      exact hsome
    show (ainsert stm.2.2.students f.school_username s2).map (fun p => p.1) = _
    rw [ainsert_keys_of_isSome _ _ _ hsome2, hp.1]

theorem feedbackPhase_classes : ∀ (fbs : List StudentFeedback) (st st2 : BuildState),
    feedbackPhase fbs st = .ok st2 →
    st2.attractor_class = st.attractor_class ∧ st2.repulsor_class = st.repulsor_class
  | [], st, st2, h => by
    have he : st = st2 := by simpa [feedbackPhase] using h
    rw [← he]
    exact ⟨rfl, rfl⟩
  | f :: rest, st, st2, h => by
    cases hf : processFeedback st f with
    | error e =>
      simp only [feedbackPhase, hf] at h
      exact Except.noConfusion h
    | ok stm =>
      simp only [feedbackPhase, hf] at h
      have h1 := processFeedback_classes st stm f hf
      have h2 := feedbackPhase_classes rest stm st2 h
      exact ⟨h2.1.trans h1.1, h2.2.trans h1.2⟩

theorem feedbackPhase_keys : ∀ (fbs : List StudentFeedback) (st st2 : BuildState),
    feedbackPhase fbs st = .ok st2 →
    st2.students.map (fun p => p.1) = st.students.map (fun p => p.1)
  | [], st, st2, h => by
    have he : st = st2 := by simpa [feedbackPhase] using h
    rw [← he]
  | f :: rest, st, st2, h => by
    cases hf : processFeedback st f with
    | error e =>
      simp only [feedbackPhase, hf] at h
      exact Except.noConfusion h
    | ok stm =>
      simp only [feedbackPhase, hf] at h
      exact (feedbackPhase_keys rest stm st2 h).trans (processFeedback_keys st stm f hf)

theorem foldl_insert_classification_students (s : String) :
    ∀ (cats : List String) (st : BuildState),
      (cats.foldl (fun st c => insert_classification s c st) st).students = st.students
  | [], st => rfl
  | c :: rest, st => by
    rw [List.foldl_cons, foldl_insert_classification_students s rest _,
      insert_classification_students]

theorem seedStudents_keys : ∀ (sc : List StudentClassification) (st st2 : BuildState),
    seedStudents sc st = .ok st2 →
    st2.students.map (fun p => p.1) =
      st.students.map (fun p => p.1) ++ sc.map (fun r => r.school_username)
  | [], st, st2, h => by
    have he : st = st2 := by simpa [seedStudents] using h
    rw [← he]
    simp
  | s :: rest, st, st2, h => by
    by_cases hdup : (alookup st.students s.school_username).isSome = true
    · simp only [seedStudents] at h
      rw [if_pos hdup] at h
      exact Except.noConfusion h
    · simp only [seedStudents] at h
      rw [if_neg hdup] at h
      have hrec := seedStudents_keys rest _ st2 h
      rw [hrec, foldl_insert_classification_students]
      show (ainsert st.students s.school_username
          (Student.new s.name s.school_username s.github_username)).map (fun p => p.1) ++ _ = _
      rw [ainsert_keys_of_none _ _ _ hdup]
      simp

theorem seedStudents_ok_fresh : ∀ (sc : List StudentClassification) (st st2 : BuildState),
    seedStudents sc st = .ok st2 →
    (sc.map (fun r => r.school_username)).Nodup ∧
    ∀ r ∈ sc, (alookup st.students r.school_username).isSome = false
  | [], _, _, _ => ⟨by simp, by simp⟩
  | s :: rest, st, st2, h => by
    by_cases hdup : (alookup st.students s.school_username).isSome = true
    · simp only [seedStudents] at h
      rw [if_pos hdup] at h
      exact Except.noConfusion h
    · simp only [seedStudents] at h
      rw [if_neg hdup] at h
      obtain ⟨hnd, hfresh⟩ := seedStudents_ok_fresh rest _ st2 h
      have hfresh2 : ∀ r ∈ rest, (alookup (ainsert st.students s.school_username
          (Student.new s.name s.school_username s.github_username))
            r.school_username).isSome = false := by
        intro r hr
        have hthis := hfresh r hr
        rwa [foldl_insert_classification_students] at hthis
      have hne : ∀ r ∈ rest, ¬ r.school_username = s.school_username := by
        intro r hr he
        have hthis := hfresh2 r hr
        rw [he, alookup_ainsert_self] at hthis
        simp at hthis
      refine ⟨?_, ?_⟩
      · simp only [List.map_cons, List.nodup_cons]
        refine ⟨?_, hnd⟩
        intro hmem
        obtain ⟨r, hr, hkey⟩ := List.mem_map.mp hmem
        exact hne r hr hkey
      · intro r hr
        rcases List.mem_cons.mp hr with rfl | hr2
        · simpa using hdup
        · have hthis := hfresh2 r hr2
          rwa [alookup_ainsert_ne _ _ _ _ (hne r hr2)] at hthis

theorem seedStudents_error_dup : ∀ (sc : List StudentClassification) (st : BuildState)
    (e : BuildErr), seedStudents sc st = .error e → e = .duplicateStudent
  | [], st, e, h => by simp [seedStudents] at h
  | s :: rest, st, e, h => by
    by_cases hdup : (alookup st.students s.school_username).isSome = true
    · simp only [seedStudents] at h
      rw [if_pos hdup] at h
      have he : BuildErr.duplicateStudent = e := by simpa using h
      exact he.symm
    · simp only [seedStudents] at h
      rw [if_neg hdup] at h
      exact seedStudents_error_dup rest _ e h

theorem relationStep_students (st : BuildState) (c : ClassificationRelations) :
    (relationStep st c).students = st.students := by
  simp only [relationStep]
  repeat' split
  all_goals rfl

theorem relationPhase_students : ∀ (cr : List ClassificationRelations) (st : BuildState),
    (relationPhase cr st).students = st.students
  | [], st => rfl
  | c :: rest, st => by
    show ((c :: rest).foldl relationStep st).students = st.students
    rw [List.foldl_cons]
    have := relationPhase_students rest (relationStep st c)
    simp only [relationPhase] at this
    rw [this, relationStep_students]

theorem mergePhase_keys (st : BuildState) :
    ∀ (l : List (String × Student)) (out : List (String × Student)),
      mergePhase st l = .ok out → out.map (fun p => p.1) = l.map (fun p => p.1)
  | [], out, h => by
    have he : ([] : List (String × Student)) = out := by simpa [mergePhase] using h
    rw [← he]
  | (k, s) :: rest, out, h => by
    cases hm : mergeStudent st s with
    | error e =>
      simp only [mergePhase, hm] at h
      exact Except.noConfusion h
    | ok s2 =>
      cases hr : mergePhase st rest with
      | error e =>
        simp only [mergePhase, hm, hr] at h
        exact Except.noConfusion h
      | ok rest2 =>
        simp only [mergePhase, hm, hr] at h
        have he : (k, s2) :: rest2 = out := by simpa using h
        rw [← he]
        simp [mergePhase_keys st rest rest2 hr]

theorem processPhrases_unknown (lt : String) :
    ∀ (phrases fbv fbw : List String) (st : BuildState),
      (∃ ph ∈ phrases, comment_mapping.find? (fun p => p.1 == strTrim ph) = none) →
      processPhrases lt phrases fbv fbw st = .error .unknownPhrase
  | [], _, _, _, hex => by simp at hex
  | ph :: rest, fbv, fbw, st, hex => by
    cases hf : comment_mapping.find? (fun p => p.1 == strTrim ph) with
    | none => simp [processPhrases, hf]
    | some entry =>
      obtain ⟨ph1, c, want, veto⟩ := entry
      simp only [processPhrases, hf]
      obtain ⟨ph0, hph0, hnone⟩ := hex
      rcases List.mem_cons.mp hph0 with rfl | hmem
      · rw [hf] at hnone
        exact Option.noConfusion hnone
      · exact processPhrases_unknown lt rest _ _ _ ⟨ph0, hmem, hnone⟩

/-
Concrete builder inputs for counterexamples and witnesses.
-/

def c5sc : List StudentClassification :=
  [⟨"P", "p", "pg2", some "S"⟩, ⟨"T", "t", "tg2", none⟩]

def c5cr : List ClassificationRelations :=
  [⟨"S", "lazy", "+"⟩, ⟨"lazy", "S", "-"⟩]

def c5fb : List StudentFeedback :=
  [⟨"e", "p", "pg", "", some "t", some "Procrastinated.", none,
    none, none, none, none, none, none⟩]

def c7sc : List StudentClassification :=
  [⟨"A", "Alice", "ag", none⟩, ⟨"B", "bob", "bg", none⟩]

def c7fb : List StudentFeedback :=
  [⟨"e", "bob", "bg", "", none, none, none, some "Alice", none, none, none, none, none⟩]

def dupClassification : List StudentClassification :=
  [⟨"x", "d", "g1", none⟩, ⟨"y", "d", "g2", none⟩]

/-- A single-person build state as it stands at the start of the feedback
phase. -/
def smallState : BuildState :=
  { emptyBuildState with
    students := [("p", Student.new "P" "p" "pg")]
    student_classification := [("p", [])] }

def emptyFeedbackRecord : StudentFeedback :=
  ⟨"e", "p", "pg", "", some "p", none, none, none, none, none, none, none, none⟩

def bogusPhraseRecord : StudentFeedback :=
  ⟨"e", "p", "pg", "", some "p", some "bogus", none, none, none, none, none, none, none⟩

def unknownPersonRecord : StudentFeedback :=
  ⟨"e", "zz", "zg", "", none, none, none, none, none, none, none, none, none⟩

def soloYesRecord : StudentFeedback :=
  ⟨"e", "p", "pg", "Yes", none, none, none, none, none, none, none, none, none⟩

def soloStudent : Student := { Student.new "P" "p" "pg" with ok_solo := true }

def smallState2 : BuildState := { smallState with students := [("p", soloStudent)] }

/-- C5 counterexample: two people p (category S) and t; the relations say S
attracts lazy and lazy repels S; the feedback of p marks its last teammate t
with the phrase Procrastinated., whose derived category is lazy.  The claim
says the builder re-runs relation propagation for lazy, so t would newly
appear in the attractor-category-member set of S and hence in the
classification attractors of p.  The code does not re-run step 3: p does not
gain t as a classification attractor.  The retroactive membership is real,
but only changes the merge for t itself: t gains p as a repulsor through the
lazy-repels-S rule, and p gains the staged veto of t. -/
theorem c5_counterexample :
    ((student_matrix c5fb c5sc c5cr).toOption.bind (fun m => alookup m "p")).map
      (fun s => s.classification_attractors.contains "t") = some false ∧
    ((student_matrix c5fb c5sc c5cr).toOption.bind (fun m => alookup m "t")).map
      (fun s => s.repulsors.contains "p") = some true ∧
    ((student_matrix c5fb c5sc c5cr).toOption.bind (fun m => alookup m "p")).map
      (fun s => s.repulsors.contains "t") = some true :=
  ⟨by decide, by decide, by decide⟩

/-- C5 amended: when a matched phrase carries a derived category, the builder
adds the resolved last-teammate handle to that category membership index (and
the category to the last-teammate label set), but it does not re-run the
relation-propagation step: the whole feedback phase leaves the
attractor-category and repulsor-category sets exactly as the pre-feedback
snapshot computed them, so the last-teammate cannot newly appear in the
category-derived sets of other people; the addition only changes which
category sets are folded into the last-teammate own model during the final
merge. -/
theorem c5_retroactive_classification :
    (∀ (s c : String) (st : BuildState), ¬ c = "" →
      ∃ mem, alookup (insert_classification s c st).classification_students c = some mem ∧
        mem.contains s = true) ∧
    (∀ (fbs : List StudentFeedback) (st st2 : BuildState),
      feedbackPhase fbs st = .ok st2 →
      st2.attractor_class = st.attractor_class ∧
        st2.repulsor_class = st.repulsor_class) := by
  constructor
  · intro s c st hc
    refine ⟨setInsert ((alookup st.classification_students c).getD []) s, ?_, ?_⟩
    · simp only [insert_classification]
      rw [if_neg hc]
      exact alookup_ainsert_self _ _ _
    · exact setInsert_contains_self _ _
  · intro fbs st st2 h
    exact feedbackPhase_classes fbs st st2 h

theorem c5_witness :
    (∃ mem, alookup (insert_classification "t" "lazy" emptyBuildState).classification_students
        "lazy" = some mem ∧ mem.contains "t" = true) ∧
    (smallState2.attractor_class = smallState.attractor_class ∧
      smallState2.repulsor_class = smallState.repulsor_class) :=
  ⟨c5_retroactive_classification.1 "t" "lazy" emptyBuildState (by decide),
    c5_retroactive_classification.2 [soloYesRecord] smallState smallState2 (by decide)⟩

theorem uniqueList_three (a b c : String) (hba : ¬ b = a) (hca : ¬ c = a) (hcb : ¬ c = b) :
    uniqueList [a, b, c] = [a, b, c] := by
  simp [uniqueList, uniqueAux, List.contains, hba, hca, hcb]

/-- C7 counterexample: the classification record for Alice keeps its original
casing (parse does not canonicalize classification records, lines 69-73), so
the model is keyed "Alice" and not "alice"; the sanitized veto entry "alice"
given by bob then fails validation and is dropped: bob ends with no
repulsors. -/
theorem c7_counterexample :
    ((student_matrix c7fb c7sc []).toOption.bind (fun m => alookup m "alice")) = none ∧
    ((student_matrix c7fb c7sc []).toOption.bind (fun m => alookup m "Alice")).isSome = true ∧
    ((student_matrix c7fb c7sc []).toOption.bind (fun m => alookup m "bob")).map
      (fun s => s.repulsors) = some [] :=
  ⟨by decide, by decide, by decide⟩

/-- C7 amended: the PersonModel mapping is keyed by the classification record
canonical-handle field exactly as given (only feedback records have their own
handles canonicalized by parse), so lookups of sanitized veto and want
entries succeed only when the classification input is already trimmed and
lowercased. -/
theorem c7_amended (fb : List StudentFeedback) (sc : List StudentClassification)
    (cr : List ClassificationRelations) (m : Students)
    (h : student_matrix fb sc cr = .ok m) :
    m.map (fun p => p.1) = sc.map (fun r => r.school_username) := by
  cases hseed : seedStudents sc emptyBuildState with
  | error e =>
    simp only [student_matrix, hseed] at h
    exact Except.noConfusion h
  | ok st1 =>
    simp only [student_matrix, hseed] at h
    cases hfb : feedbackPhase fb (aliasPhase fb (relationPhase cr st1)) with
    | error e =>
      simp only [hfb] at h
      exact Except.noConfusion h
    | ok st4 =>
      simp only [hfb] at h
      have h1 := mergePhase_keys st4 st4.students m h
      have h2 := feedbackPhase_keys fb (aliasPhase fb (relationPhase cr st1)) st4 hfb
      have h3 : (aliasPhase fb (relationPhase cr st1)).students = st1.students := by
        show (relationPhase cr st1).students = st1.students
        exact relationPhase_students cr st1
      have h4 := seedStudents_keys sc emptyBuildState st1 hseed
      rw [h1, h2, h3, h4]
      simp [emptyBuildState]

theorem c7_witness :
    ([("Alice", Student.new "A" "Alice" "ag")] : Students).map (fun p => p.1) =
      ([⟨"A", "Alice", "ag", none⟩] : List StudentClassification).map
        (fun r => r.school_username) :=
  c7_amended [] [⟨"A", "Alice", "ag", none⟩] [] [("Alice", Student.new "A" "Alice" "ag")]
    (by decide)

/-- C8: the error taxonomy of the builder.  A duplicate canonical handle in
the classification records aborts the whole run with the duplicate-student
failure and no mapping is produced; a feedback phrase outside the closed
vocabulary (for a known respondent with a resolved last teammate) aborts the
record processing with the unknown-phrase failure; a feedback record whose
respondent is unknown is skipped with no state change; a veto (or want) field
naming an unknown handle is dropped, leaving the fused list exactly as if the
field had been absent. -/
theorem c8_error_taxonomy :
    (∀ (fb : List StudentFeedback) (sc : List StudentClassification)
        (cr : List ClassificationRelations),
      ¬ (sc.map (fun r => r.school_username)).Nodup →
      student_matrix fb sc cr = .error .duplicateStudent) ∧
    (∀ (st : BuildState) (f : StudentFeedback) (s : Student) (lg lt : String),
      alookup st.students f.school_username = some s →
      f.last_teammate_github_username = some lg →
      resolveLastTeammate st lg = some lt →
      (∃ ph ∈ strSplitComma (f.last_teammate_feedback.getD ""),
        comment_mapping.find? (fun p => p.1 == strTrim ph) = none) →
      processFeedback st f = .error .unknownPhrase) ∧
    (∀ (st : BuildState) (f : StudentFeedback),
      alookup st.students f.school_username = none → processFeedback st f = .ok st) ∧
    (∀ (m : List (String × List String)) (prior : List String) (v : String)
        (v1 v2 : Option String) (fbv : List String),
      (alookup m (sanitize v)).isSome = false →
      applyVetoFields m prior (some v) v1 v2 fbv =
        applyVetoFields m prior none v1 v2 fbv) := by
  refine ⟨?_, ?_, ?_, ?_⟩
  · intro fb sc cr hnd
    cases hseed : seedStudents sc emptyBuildState with
    | ok st1 =>
      exact absurd (seedStudents_ok_fresh sc emptyBuildState st1 hseed).1 hnd
    | error e =>
      have he := seedStudents_error_dup sc emptyBuildState e hseed
      simp only [student_matrix, hseed, he]
  · intro st f s lg lt hs hlg hres hex
    have hpp := processPhrases_unknown lt
      (strSplitComma ((f.last_teammate_feedback).getD "")) [] [] st hex
    have hstage : stageLastTeammate st f = .error .unknownPhrase := by
      simp only [stageLastTeammate, hlg, hres, hpp]
    simp only [processFeedback, hs, hstage]
  · intro st f hs
    simp [processFeedback, hs]
  · intro m prior v v1 v2 fbv hv
    simp only [applyVetoFields, pushVetoFields, List.foldl, hv, Bool.false_eq_true, if_false,
      reduceIte]

theorem c8_witness :
    student_matrix [] dupClassification [] = .error .duplicateStudent ∧
    processFeedback smallState bogusPhraseRecord = .error .unknownPhrase ∧
    processFeedback smallState unknownPersonRecord = .ok smallState ∧
    applyVetoFields [("p", [])] [] (some "ghost") none none [] =
      applyVetoFields [("p", [])] [] none none none [] :=
  ⟨c8_error_taxonomy.1 [] dupClassification [] (by decide),
    c8_error_taxonomy.2.1 smallState bogusPhraseRecord (Student.new "P" "p" "pg") "p" "p"
      (by decide) rfl (by decide) ⟨"bogus", by decide, by decide⟩,
    c8_error_taxonomy.2.2.1 smallState unknownPersonRecord (by decide),
    c8_error_taxonomy.2.2.2 [("p", [])] [] "ghost" none none [] (by decide)⟩

/-- C10: when a feedback record resolves its last teammate but carries no
last-teammate feedback text (absent or empty), the comma split of the empty
default produces the single empty phrase, which is not in the closed
vocabulary, so the builder aborts with the unknown-phrase failure (the Rust
assert at line 276). -/
theorem c10_empty_feedback_fatal (st : BuildState) (f : StudentFeedback) (s : Student)
    (lg : String)
    (hs : alookup st.students f.school_username = some s)
    (hlg : f.last_teammate_github_username = some lg)
    (hres : (resolveLastTeammate st lg).isSome = true)
    (hfb : f.last_teammate_feedback = none ∨ f.last_teammate_feedback = some "") :
    processFeedback st f = .error .unknownPhrase := by
  obtain ⟨lt, hlt⟩ := Option.isSome_iff_exists.mp hres
  have hsplit : strSplitComma (f.last_teammate_feedback.getD "") = [""] := by
    rcases hfb with h | h <;> rw [h] <;> decide
  have hex : ∃ ph ∈ strSplitComma (f.last_teammate_feedback.getD ""),
      comment_mapping.find? (fun p => p.1 == strTrim ph) = none := by
    rw [hsplit]
    exact ⟨"", by simp, by decide⟩
  have hpp := processPhrases_unknown lt
    (strSplitComma ((f.last_teammate_feedback).getD "")) [] [] st hex
  have hstage : stageLastTeammate st f = .error .unknownPhrase := by
    simp only [stageLastTeammate, hlg, hlt, hpp]
  simp only [processFeedback, hs, hstage]

theorem c10_witness :
    alookup smallState.students emptyFeedbackRecord.school_username =
      some (Student.new "P" "p" "pg") ∧
    (resolveLastTeammate smallState "p").isSome = true ∧
    processFeedback smallState emptyFeedbackRecord = .error .unknownPhrase :=
  ⟨by decide, by decide,
    c10_empty_feedback_fatal smallState emptyFeedbackRecord (Student.new "P" "p" "pg") "p"
      (by decide) rfl (by decide) (Or.inl rfl)⟩

theorem contains_cons_str (y : String) (ys : List String) (x : String) :
    (y :: ys).contains x = (x == y || ys.contains x) := by
  cases hxy : x == y <;> simp [List.contains, List.elem, hxy]

theorem contains_reverse (l : List String) (x : String) :
    l.reverse.contains x = l.contains x := by
  by_cases h : x ∈ l
  · have h1 : l.reverse.contains x = true := by simp [h]
    have h2 : l.contains x = true := by simp [h]
    rw [h1, h2]
  · have h1 : l.reverse.contains x = false := by simp [h]
    have h2 : l.contains x = false := by simp [h]
    rw [h1, h2]

/-- Deduplication keeping the last occurrence of each value, in the original
order: an element survives exactly when it does not occur again later. -/
def dedupKeepLast : List String → List String
  | [] => []
  | x :: xs => if xs.contains x then dedupKeepLast xs else x :: dedupKeepLast xs

theorem uniqueAux_append_singleton (x : String) :
    ∀ (l seen : List String),
      uniqueAux seen (l ++ [x]) =
        if seen.contains x || l.contains x then uniqueAux seen l
        else uniqueAux seen l ++ [x]
  | [], seen => by
    by_cases h : seen.contains x = true
    · simp [uniqueAux, h]
    · have hf : seen.contains x = false := by simpa using h
      simp [uniqueAux, hf]
  | y :: ys, seen => by
    by_cases hy : seen.contains y = true
    · simp only [List.cons_append, uniqueAux, hy, if_true, reduceIte, List.append_eq]
      rw [uniqueAux_append_singleton x ys seen]
      by_cases hxy : (x == y) = true
      · have hx : x = y := eq_of_beq hxy
        have hsx : seen.contains x = true := by rw [hx]; exact hy
        have hmem : x ∈ seen := by simpa using hsx
        simp [hmem]
      · have hxyf : (x == y) = false := by simpa using hxy
        rw [contains_cons_str, hxyf]
        simp
    · have hyf : seen.contains y = false := by simpa using hy
      simp only [List.cons_append, uniqueAux, hyf, Bool.false_eq_true, if_false, reduceIte,
        List.append_eq]
      rw [uniqueAux_append_singleton x ys (y :: seen)]
      rw [contains_cons_str y seen x, contains_cons_str y ys x]
      by_cases hxy : (x == y) = true
      · simp [hxy]
      · have hxyf : (x == y) = false := by simpa using hxy
        simp only [hxyf, Bool.false_or]
        rw [apply_ite (List.cons y)]

/-- The capped list produced by unique().rev().take(3) equals the list with
duplicates removed keeping last occurrences, reversed, truncated to 3. -/
theorem uniqueList_reverse_keepLast : ∀ l : List String,
    uniqueList l.reverse = (dedupKeepLast l).reverse
  | [] => rfl
  | x :: xs => by
    show uniqueAux [] (x :: xs).reverse = _
    rw [List.reverse_cons, uniqueAux_append_singleton x xs.reverse []]
    have hih : uniqueAux [] xs.reverse = (dedupKeepLast xs).reverse :=
      uniqueList_reverse_keepLast xs
    by_cases hmem : x ∈ xs
    · simp [dedupKeepLast, hmem, hih, List.contains]
    · simp [dedupKeepLast, hmem, hih, List.contains]

/-- The cap procedure as the claim words it: deduplicate the valid sequence
keeping first occurrences, then reverse, then keep at most 3 entries. -/
def capFirstOccurrenceSpec (l : List String) : List String :=
  (uniqueList l).reverse.take 3

/-- C6 counterexample: with the duplicate-containing valid fields x, y, x
(empty prior, no staged entries), the pushed valid sequence is [x, y, x];
itertools unique().rev().take(3) deduplicates from the back keeping last
occurrences, so the code stores [x, y], while the claimed procedure
(deduplicate keeping first occurrences, reverse, truncate) yields [y, x]:
the two lists differ. -/
theorem c6_counterexample :
    pushVetoFields [("x", []), ("y", [])] [] (some "x") (some "y") (some "x") =
      ["x", "y", "x"] ∧
    applyVetoFields [("x", []), ("y", [])] [] (some "x") (some "y") (some "x") [] =
      ["x", "y"] ∧
    capFirstOccurrenceSpec ["x", "y", "x"] ++ [] = ["y", "x"] ∧
    applyVetoFields [("x", []), ("y", [])] [] (some "x") (some "y") (some "x") [] ≠
      capFirstOccurrenceSpec ["x", "y", "x"] ++ [] :=
  ⟨by decide, by decide, by decide, by decide⟩

/-- C6 amended: for every feedback record, the stored veto list equals the
pushed valid sequence with duplicates removed keeping the last occurrence of
each value, reversed, and truncated to at most 3 entries, with the staged
historical-feedback-derived repulsions appended after this capped list,
unvalidated and uncapped; in particular, for distinct valid fields x, y, z
from an empty prior list the capped part is exactly the sanitized z, y, x.
The identical function applyVetoFields is what processFeedback uses for both
the veto and the want fields. -/
theorem c6_veto_cap_last_occurrence (m : List (String × List String)) (prior : List String)
    (v0 v1 v2 : Option String) (fbv : List String) (x y z : String)
    (hx : (alookup m (sanitize x)).isSome = true)
    (hy : (alookup m (sanitize y)).isSome = true)
    (hz : (alookup m (sanitize z)).isSome = true)
    (hyx : ¬ sanitize y = sanitize x)
    (hzx : ¬ sanitize z = sanitize x)
    (hzy : ¬ sanitize z = sanitize y) :
    applyVetoFields m prior v0 v1 v2 fbv =
      (dedupKeepLast (pushVetoFields m prior v0 v1 v2)).reverse.take 3 ++ fbv ∧
    applyVetoFields m [] (some x) (some y) (some z) fbv =
      [sanitize z, sanitize y, sanitize x] ++ fbv := by
  constructor
  · simp only [applyVetoFields]
    rw [uniqueList_reverse_keepLast]
  · simp only [applyVetoFields, pushVetoFields, List.foldl, hx, hy, hz, if_true, reduceIte,
      List.nil_append, List.singleton_append, List.cons_append]
    rw [show ([sanitize x, sanitize y, sanitize z] : List String).reverse =
      [sanitize z, sanitize y, sanitize x] by simp]
    rw [uniqueList_three _ _ _ (fun h => hzy h.symm) (fun h => hzx h.symm)
      (fun h => hyx h.symm)]
    simp

theorem c6_witness :
    (applyVetoFields [("x", []), ("y", []), ("z", [])] ["q0"] (some "x") (some "y")
        (some "x") ["q"] =
      (dedupKeepLast (pushVetoFields [("x", []), ("y", []), ("z", [])] ["q0"] (some "x")
        (some "y") (some "x"))).reverse.take 3 ++ ["q"]) ∧
    applyVetoFields [("x", []), ("y", []), ("z", [])] [] (some "x") (some "y") (some "z")
        ["q"] = [sanitize "z", sanitize "y", sanitize "x"] ++ ["q"] :=
  c6_veto_cap_last_occurrence [("x", []), ("y", []), ("z", [])] ["q0"] (some "x")
    (some "y") (some "x") ["q"] "x" "y" "z" (by decide) (by decide) (by decide)
    (by decide) (by decide) (by decide)
